import Mathlib

/-!
Shallow embedding of `sdk/python/lib/pulumi/runtime/rpc.py`: property
serialization/deserialization for the engine RPC boundary, and output
resolution.  Python values are modelled by the inductive `PValue`, protobuf
wire values by `WireValue`, exceptions by `Except PyError`, the mutable
`deps` list by explicit state passing, and `await` points as already-resolved
data carried in the value constructors.
-/

set_option maxHeartbeats 1000000

/-- UNKNOWN sentinel string from rpc.py line 35: tells the engine a value may
be computed later. -/
def UNKNOWN : String := "04da6b54-80e4-46f7-96ec-b56ff0331ba9"

/-- Reserved signature key used to encode type identity inside a map
(rpc.py line 38). -/
def special_sig_key : String := "4dabf18193072939515e22adb298388d"

/-- Signature value identifying assets in maps (rpc.py line 41). -/
def special_asset_sig : String := "c44067f5952c0a294b673a41bacd8c17"

/-- Signature value identifying archives in maps (rpc.py line 44). -/
def special_archive_sig : String := "0def7320c3a5731c473e5ecbe6d01bc7"

/-- Signature value identifying secrets in maps (rpc.py line 47). -/
def special_secret_sig : String := "1b47061264138c4ac30d75fd1eb44270"

/-- Wire values: the protobuf `Value` alphabet (null / bool / number / string /
`ListValue` / `Struct`).  Struct fields are an insertion-ordered association
list; a protobuf `Struct` has unique keys.  Numbers carry no claim-relevant
arithmetic, so they are modelled as integers. -/
inductive WireValue where
  | null
  | bool (b : Bool)
  | num (n : Int)
  | str (s : String)
  | list (xs : List WireValue)
  | struct (fields : List (String × WireValue))
deriving Repr

/-- Python-side values flowing through rpc.py, covering exactly the cases the
source dispatches on:
* `vnone`/`vbool`/`vnum`/`vstr` — scalars (legal protobuf leaves);
* `vlist`/`vdict` — `list` and string-keyed `dict`;
* `vunknown` — a value for which `known_types.is_unknown` holds;
* `vres entity idv` — a `CustomResource` (`known_types.is_custom_resource`)
  with entity identifier `entity` and `id` attribute `idv`;
* `vasset path text uri` / `varchive assets path uri` — asset/archive objects;
  the serializer probes them with `hasattr`, so each alternative field is an
  `Option` (duck typing allows any subset to be populated);
* `vfuture v` — an awaitable that resolves to `v`;
* `voutput resources known secret v` — an `Output` whose `resources()`,
  `_is_known`, `_is_secret` and `future()` awaits resolve to the given data;
* `vinput entries` — an input type (`_pulumi_input_type`) whose `_to_dict()`
  rendering is `entries` (keys already final);
* `villegal ty` — a value of type `ty` failing `isLegalProtobufValue`. -/
inductive PValue where
  | vnone
  | vbool (b : Bool)
  | vnum (n : Int)
  | vstr (s : String)
  | vlist (xs : List PValue)
  | vdict (entries : List (String × PValue))
  | vunknown
  | vres (entity : Nat) (idv : PValue)
  | vasset (path text uri : Option PValue)
  | varchive (assets path uri : Option PValue)
  | vfuture (v : PValue)
  | voutput (resources : List Nat) (known secret : Bool) (v : PValue)
  | vinput (entries : List (String × PValue))
  | villegal (ty : String)
deriving Repr

/-- Python `value is None` for modelled values. -/
def PValue.isNone : PValue → Bool
  | .vnone => true
  | _ => false

/-- Python exceptions raised by the embedded code. -/
inductive PyError where
  | assertionError (msg : String)
  | valueError (msg : String)
deriving Repr, DecidableEq

/-- Lookup in a python-dict-like association list (first matching key). -/
def dictGet {α : Type} : List (String × α) → String → Option α
  | [], _ => none
  | (k', v') :: rest, k => if k' = k then some v' else dictGet rest k

/-- Python dict assignment `m[k] = v`: overwrite in place if the key exists,
append otherwise. -/
def dictSet {α : Type} : List (String × α) → String → α → List (String × α)
  | [], k, v => [(k, v)]
  | (k', v') :: rest, k, v =>
      if k' = k then (k, v) :: rest else (k', v') :: dictSet rest k v

/-- Pairwise-distinct keys of an association list: what every python dict
guarantees for its own keys. -/
def keys_nodup {α : Type} : List (String × α) → Bool
  | [] => true
  | (k, _) :: rest =>
      (match dictGet rest k with
       | some _ => false
       | none => true) && keys_nodup rest

/-- Key transformation of the dict-serialization loop (rpc.py lines 212-216):
the `input_transformer` applies only when `transform_keys` is true. -/
def transformed_key (tr : Option (String → String)) (transform_keys : Bool)
    (k : String) : String :=
  if transform_keys then
    match tr with
    | some f => f k
    | none => k
  else k

mutual

/-- serialize_property (rpc.py lines 97-225): serializes a single `Input` into
a wire value.  The mutable `deps` list of the source is threaded explicitly;
`tr` is the optional `input_transformer`, `ss` models
`settings.monitor_supports_secrets()`.  Match arms follow the source's
dispatch order; the constructors are mutually exclusive, matching the
source's `isinstance`/`known_types` tests.  The `hasattr` chains for assets
(path, text, uri) and archives (assets, path, uri) become nested
option-matches in the same order. -/
def serialize_property (tr : Option (String → String)) (ss : Bool) :
    PValue → List Nat → Except PyError (WireValue × List Nat)
  | .vlist xs, deps =>
      match serialize_property_list tr ss xs deps with
      | .error e => .error e
      | .ok (props, deps) => .ok (.list props, deps)
  | .vunknown, deps => .ok (.str UNKNOWN, deps)
  | .vres entity idv, deps =>
      -- deps.append(resource); then serialize resource.id
      serialize_property tr ss idv (deps ++ [entity])
  | .vasset path text uri, deps =>
      match path with
      | some pv =>
          match serialize_property tr ss pv deps with
          | .error e => .error e
          | .ok (w, deps) =>
              .ok (.struct [(special_sig_key, .str special_asset_sig), ("path", w)], deps)
      | none =>
          match text with
          | some tv =>
              match serialize_property tr ss tv deps with
              | .error e => .error e
              | .ok (w, deps) =>
                  .ok (.struct [(special_sig_key, .str special_asset_sig), ("text", w)], deps)
          | none =>
              match uri with
              | some uv =>
                  match serialize_property tr ss uv deps with
                  | .error e => .error e
                  | .ok (w, deps) =>
                      .ok (.struct [(special_sig_key, .str special_asset_sig), ("uri", w)], deps)
              | none => .error (.assertionError "unknown asset type")
  | .varchive assets path uri, deps =>
      match assets with
      | some av =>
          match serialize_property tr ss av deps with
          | .error e => .error e
          | .ok (w, deps) =>
              .ok (.struct [(special_sig_key, .str special_archive_sig), ("assets", w)], deps)
      | none =>
          match path with
          | some pv =>
              match serialize_property tr ss pv deps with
              | .error e => .error e
              | .ok (w, deps) =>
                  .ok (.struct [(special_sig_key, .str special_archive_sig), ("path", w)], deps)
          | none =>
              match uri with
              | some uv =>
                  match serialize_property tr ss uv deps with
                  | .error e => .error e
                  | .ok (w, deps) =>
                      .ok (.struct [(special_sig_key, .str special_archive_sig), ("uri", w)], deps)
              | none => .error (.assertionError "unknown archive type")
  | .vfuture v, deps =>
      -- awaitable: await, then serialize the result
      serialize_property tr ss v deps
  | .voutput resources known secret v, deps =>
      -- deps.extend(await output.resources()); the underlying future is
      -- serialized before is_known is consulted (source lines 183-195)
      match serialize_property tr ss v (deps ++ resources) with
      | .error e => .error e
      | .ok (w, deps) =>
          if !known then .ok (.str UNKNOWN, deps)
          else if secret && ss then
            .ok (.struct [(special_sig_key, .str special_secret_sig), ("value", w)], deps)
          else .ok (w, deps)
  | .vinput entries, deps =>
      -- input type: value = _to_dict(value); transform_keys = False; obj = {}
      match serialize_property_entries tr ss false entries [] deps with
      | .error e => .error e
      | .ok (fields, deps) => .ok (.struct fields, deps)
  | .vdict entries, deps =>
      -- obj = {}
      match serialize_property_entries tr ss true entries [] deps with
      | .error e => .error e
      | .ok (fields, deps) => .ok (.struct fields, deps)
  | .vnone, deps => .ok (.null, deps)
  | .vbool b, deps => .ok (.bool b, deps)
  | .vnum n, deps => .ok (.num n, deps)
  | .vstr s, deps => .ok (.str s, deps)
  | .villegal ty, deps => .error (.valueError ("unexpected input of type " ++ ty))

/-- Element-wise serialization of a python list (rpc.py lines 104-109),
threading `deps` left to right. -/
def serialize_property_list (tr : Option (String → String)) (ss : Bool) :
    List PValue → List Nat → Except PyError (List WireValue × List Nat)
  | [], deps => .ok ([], deps)
  | x :: xs, deps =>
      match serialize_property tr ss x deps with
      | .error e => .error e
      | .ok (w, deps) =>
          match serialize_property_list tr ss xs deps with
          | .error e => .error e
          | .ok (ws, deps) => .ok (w :: ws, deps)

/-- Entry-wise serialization of a python dict (rpc.py lines 210-219).  Keys go
through the `input_transformer` only when `transform_keys` is true (it is
false for an input type's `_to_dict` rendering).  The source stores
`obj[transformed_key] = await serialize_property(v, ...)` unconditionally —
entries whose value serializes to `None` are kept, not dropped — and with
python dict-assignment semantics: when the transformer maps two keys to the
same name, the later write overwrites the earlier one (`dictSet` on the `obj`
accumulator). -/
def serialize_property_entries (tr : Option (String → String)) (ss : Bool)
    (transform_keys : Bool) :
    List (String × PValue) → List (String × WireValue) → List Nat →
    Except PyError (List (String × WireValue) × List Nat)
  | [], obj, deps => .ok (obj, deps)
  | (k, v) :: rest, obj, deps =>
      match serialize_property tr ss v deps with
      | .error e => .error e
      | .ok (w, deps) =>
          serialize_property_entries tr ss transform_keys rest
            (dictSet obj (transformed_key tr transform_keys k) w) deps

end

/-- Loop body of serialize_properties (rpc.py lines 77-93): each top-level
property is serialized with a fresh `deps` list; a property whose value
serializes to `None` is skipped entirely (neither the struct nor
`property_deps` gains an entry); otherwise the translated name keys both. -/
def serialize_properties_go (tr : Option (String → String)) (ss : Bool) :
    List (String × PValue) → List (String × WireValue) → List (String × List Nat) →
    Except PyError (List (String × WireValue) × List (String × List Nat))
  | [], struct, property_deps => .ok (struct, property_deps)
  | (k, v) :: rest, struct, property_deps =>
      match serialize_property tr ss v [] with
      | .error e => .error e
      | .ok (result, deps) =>
          match result with
          | .null => serialize_properties_go tr ss rest struct property_deps
          | r =>
              let translated_name :=
                match tr with
                | some f => f k
                | none => k
              serialize_properties_go tr ss rest
                (dictSet struct translated_name r)
                (dictSet property_deps translated_name deps)

/-- serialize_properties (rpc.py lines 69-93): serialize an input bag into a
struct, recording per-property dependency lists. -/
def serialize_properties (tr : Option (String → String)) (ss : Bool)
    (inputs : List (String × PValue)) :
    Except PyError (List (String × WireValue) × List (String × List Nat)) :=
  serialize_properties_go tr ss inputs [] []

/-- is_rpc_secret (rpc.py lines 278-282): is the value a dict carrying the
signature key mapped to the secret signature string? -/
def is_rpc_secret : PValue → Bool
  | .vdict entries =>
      match dictGet entries special_sig_key with
      | some (.vstr s) => s = special_secret_sig
      | _ => false
  | _ => false

/-- unwrap_rpc_secret (rpc.py lines 284-291): strip one secret wrapper, if
present.  A wrapper produced by this code always carries a "value" entry, so
the fallback arm (python would raise `KeyError`) is unreachable for wrappers
this module builds. -/
def unwrap_rpc_secret (v : PValue) : PValue :=
  if is_rpc_secret v then
    match v with
    | .vdict entries =>
        match dictGet entries "value" with
        | some x => x
        | none => v
    | _ => v
  else v

mutual

/-- Protobuf message field access (well_known_types `Struct.__getitem__`):
reading a struct field converts the protobuf value to a python value.  Used
where the source reads `props_struct["path"]` etc. and hands the result
straight to an asset/archive constructor without deserializing. -/
def wire_to_native : WireValue → PValue
  | .null => .vnone
  | .bool b => .vbool b
  | .num n => .vnum n
  | .str s => .vstr s
  | .list xs => .vlist (wire_to_native_list xs)
  | .struct fs => .vdict (wire_to_native_fields fs)

def wire_to_native_list : List WireValue → List PValue
  | [] => []
  | w :: ws => wire_to_native w :: wire_to_native_list ws

def wire_to_native_fields : List (String × WireValue) → List (String × PValue)
  | [] => []
  | (k, w) :: fs => (k, wire_to_native w) :: wire_to_native_fields fs

end

/-- A value found by `dictGet` is structurally smaller than the list it came
from (termination measure for recursion into looked-up struct fields). -/
theorem sizeOf_dictGet {α : Type} [SizeOf α] :
    ∀ (l : List (String × α)) (k : String) (v : α),
      dictGet l k = some v → sizeOf v < sizeOf l := by
  intro l
  induction l with
  | nil => intro k v h; simp [dictGet] at h
  | cons p rest ih =>
      intro k v h
      obtain ⟨k', v'⟩ := p
      by_cases hk : k' = k
      · simp [dictGet, hk] at h
        subst h
        simp
        omega
      · simp [dictGet, hk] at h
        have := ih k v h
        simp
        omega

mutual

/-- deserialize_properties (rpc.py lines 228-276): deserializes a struct.  A
struct carrying the signature key dispatches on its value: asset and archive
signatures rehydrate concrete asset objects (the raw field value is handed to
the constructor, modulo protobuf access conversion, except `assets`, which is
deserialized recursively); the secret signature rebuilds a secret-wrapper
dict around the recursively deserialized payload.  Note the recursive
`deserialize_property` calls in the archive and secret branches pass no
`keep_unknowns` argument in the source, so it reverts to the `None` default
(modelled as `false`).  Without a signature key, entries deserialize one by
one and entries whose value deserializes to `None` are dropped.  `dry` models
the global `settings.is_dry_run()`. -/
def deserialize_properties (dry keep_unknowns : Bool)
    (fields : List (String × WireValue)) : Except PyError PValue :=
  match dictGet fields special_sig_key with
  | some sig =>
      -- the source compares the signature value to string constants with `==`;
      -- a non-string signature value equals none of them and falls through to
      -- the "Unrecognized signature" failure
      match sig with
      | .str sigv =>
      if sigv = special_asset_sig then
        match dictGet fields "path" with
        | some w => .ok (.vasset (some (wire_to_native w)) none none)
        | none =>
            match dictGet fields "text" with
            | some w => .ok (.vasset none (some (wire_to_native w)) none)
            | none =>
                match dictGet fields "uri" with
                | some w => .ok (.vasset none none (some (wire_to_native w)))
                | none =>
                    .error (.assertionError
                      "Invalid asset encountered when unmarshalling resource property")
      else if sigv = special_archive_sig then
        match h : dictGet fields "assets" with
        | some w =>
            match deserialize_property dry false w with
            | .error e => .error e
            | .ok v => .ok (.varchive (some v) none none)
        | none =>
            match dictGet fields "path" with
            | some w => .ok (.varchive none (some (wire_to_native w)) none)
            | none =>
                match dictGet fields "uri" with
                | some w => .ok (.varchive none none (some (wire_to_native w)))
                | none =>
                    .error (.assertionError
                      "Invalid archive encountered when unmarshalling resource property")
      else if sigv = special_secret_sig then
        match h : dictGet fields "value" with
        | some w =>
            match deserialize_property dry false w with
            | .error e => .error e
            | .ok v =>
                .ok (.vdict [(special_sig_key, .vstr special_secret_sig), ("value", v)])
        | none => .error (.valueError "Value not set")
      else
        .error (.assertionError
          "Unrecognized signature when unmarshalling resource property")
      | _ =>
          .error (.assertionError
            "Unrecognized signature when unmarshalling resource property")
  | none =>
      match deserialize_properties_entries dry keep_unknowns fields with
      | .error e => .error e
      | .ok entries => .ok (.vdict entries)
termination_by 2 * sizeOf fields + 1
decreasing_by
  all_goals simp_wf
  all_goals try omega
  all_goals first
    | (have hlt := sizeOf_dictGet fields "assets" w h; omega)
    | (have hlt := sizeOf_dictGet fields "value" w h; omega)

/-- Entry loop of deserialize_properties (rpc.py lines 269-276): values that
deserialize to `None` are treated as if they do not exist. -/
def deserialize_properties_entries (dry keep_unknowns : Bool) :
    List (String × WireValue) → Except PyError (List (String × PValue))
  | [] => .ok []
  | (k, w) :: rest =>
      match deserialize_property dry keep_unknowns w with
      | .error e => .error e
      | .ok value =>
          match deserialize_properties_entries dry keep_unknowns rest with
          | .error e => .error e
          | .ok out =>
              match value with
              | .vnone => .ok out
              | v => .ok ((k, v) :: out)
termination_by l => 2 * sizeOf l
decreasing_by
  all_goals simp_wf
  all_goals omega

/-- deserialize_property (rpc.py lines 293-332).  The sentinel comparison
`value == UNKNOWN` runs first (only strings equal it); lists deserialize
elementwise and bubble secretness up; structs go through
deserialize_properties and, when the result is a dict, also bubble
secretness; everything else is identity projected. -/
def deserialize_property (dry keep_unknowns : Bool) : WireValue → Except PyError PValue
      -- `value == UNKNOWN` runs first in the source; only a string can compare
      -- equal to the sentinel, so the test is folded into the string arm
        | .str s =>
            if s = UNKNOWN then
              .ok (if dry || keep_unknowns then .vunknown else .vnone)
            else .ok (.vstr s)
        | .list xs =>
            match deserialize_property_list dry keep_unknowns xs with
            | .error e => .error e
            | .ok values =>
                if values.any is_rpc_secret then
                  .ok (.vdict [(special_sig_key, .vstr special_secret_sig),
                               ("value", .vlist (values.map unwrap_rpc_secret))])
                else .ok (.vlist values)
        | .struct fields =>
            match deserialize_properties dry keep_unknowns fields with
            | .error e => .error e
            | .ok props =>
                match props with
                | .vdict entries =>
                    if entries.any fun p => is_rpc_secret p.2 then
                      .ok (.vdict [(special_sig_key, .vstr special_secret_sig),
                                   ("value", .vdict (entries.map fun p =>
                                      (p.1, unwrap_rpc_secret p.2)))])
                    else .ok (.vdict entries)
                | other => .ok other
        | .null => .ok .vnone
        | .bool b => .ok (.vbool b)
        | .num n => .ok (.vnum n)
termination_by w => 2 * sizeOf w
decreasing_by
  all_goals simp_wf
  all_goals omega

/-- Element loop of deserialize_property's list case (rpc.py line 305). -/
def deserialize_property_list (dry keep_unknowns : Bool) :
    List WireValue → Except PyError (List PValue)
  | [] => .ok []
  | w :: ws =>
      match deserialize_property dry keep_unknowns w with
      | .error e => .error e
      | .ok v =>
          match deserialize_property_list dry keep_unknowns ws with
          | .error e => .error e
          | .ok vs => .ok (v :: vs)
termination_by l => 2 * sizeOf l
decreasing_by
  all_goals simp_wf
  all_goals omega

end

/-- Terminal/pending state of one output property slot.  The source allocates
three single-assignment futures per property (transfer_properties, rpc.py
lines 358-360); `do_resolve` writes all three together, so the slot is
modelled as one cell that is pending, fulfilled with the (value, is_known,
is_secret) triple, or poisoned with an exception (exceptions are identified
by a numeric id). -/
inductive SlotState where
  | pending
  | fulfilled (value : PValue) (known secret : Bool)
  | poisoned (exn : Nat)
deriving Repr

/-- do_resolve (rpc.py lines 362-378): an exceptional resolution poisons all
three futures with the failure; a normal one fulfills them with the triple. -/
def do_resolve (value : PValue) (known secret : Bool) (failed : Option Nat) :
    SlotState :=
  match failed with
  | some e => .poisoned e
  | none => .fulfilled value known secret

/-- Awaiting a slot's value future: suspends (`none`) while pending, yields
the value once fulfilled, raises the stored exception once poisoned. -/
def await_value : SlotState → Option (Except Nat PValue)
  | .pending => none
  | .fulfilled v _ _ => some (.ok v)
  | .poisoned e => some (.error e)

/-- Awaiting a slot's is_known future. -/
def await_known : SlotState → Option (Except Nat Bool)
  | .pending => none
  | .fulfilled _ k _ => some (.ok k)
  | .poisoned e => some (.error e)

/-- Awaiting a slot's is_secret future. -/
def await_secret : SlotState → Option (Except Nat Bool)
  | .pending => none
  | .fulfilled _ _ s => some (.ok s)
  | .poisoned e => some (.error e)

/-- transfer_properties (rpc.py lines 350-387): one pending slot per declared
property name, except the specially-handled "id" and "urn". -/
def transfer_properties (props : List String) : List (String × SlotState) :=
  (props.filter fun name => !(name = "id" || name = "urn")).map
    fun name => (name, SlotState.pending)

/-- resolve_outputs_due_to_exception (rpc.py lines 640-650): every resolver is
invoked as `resolve(None, False, False, exn)`, which poisons its slot. -/
def resolve_outputs_due_to_exception (resolvers : List String) (exn : Nat) :
    List (String × SlotState) :=
  resolvers.map fun key => (key, do_resolve .vnone false false (some exn))

/-- Declared type descriptors consumed by translate_output_properties:
`Optional[T]`, an output type (`_output_types` gives its property name to
declared type map), `Dict[str, T]`, `List[T]`, or a plain type with no
type arguments. -/
inductive TypeDesc where
  | optionalOf (t : TypeDesc)
  | outputType (types : List (String × TypeDesc))
  | dictOf (t : TypeDesc)
  | listOf (t : TypeDesc)
  | prim

mutual

/-- translate_output_properties (rpc.py lines 479-542): recursively rewrite
dict keys via the resource's `translate_output_property` function (`translate`)
and hydrate declared output types.  An `Optional` descriptor is unwrapped
first.  For a dict: an output-type descriptor supplies per-key nested types
and the translated dict is passed to the output type's constructor (modelled
as a `vinput` record holding the translated entries); a `Dict[str, T]`
descriptor supplies `T` for every key (the source's always-true
`origin is dict or typing.Dict` test then checks the two type arguments, which
only the dict descriptor has); anything else supplies no nested type.  For a
list, a `List[T]` descriptor supplies the element type.  Primitives pass
through unmodified. -/
def translate_output_properties (translate : String → String) :
    PValue → Option TypeDesc → PValue
  | output, typ =>
    let typ' :=
      match typ with
      | some (.optionalOf t) => some t
      | t => t
    match output with
    | .vdict entries =>
        let translated := translate_output_properties_entries translate typ' entries
        match typ' with
        | some (.outputType _) => .vinput translated
        | _ => .vdict translated
    | .vlist xs =>
        let element_type :=
          match typ' with
          | some (.listOf t) => some t
          | _ => none
        .vlist (translate_output_properties_list translate element_type xs)
    | other => other

/-- Key translation and per-key recursion for the dict arm (rpc.py lines
520-524), with the per-key nested type lookup of lines 503-519. -/
def translate_output_properties_entries (translate : String → String)
    (typ : Option TypeDesc) :
    List (String × PValue) → List (String × PValue)
  | [] => []
  | (k, v) :: rest =>
      let get_type :=
        match typ with
        | some (.outputType types) => dictGet types k
        | some (.dictOf t) => some t
        | _ => none
      (translate k, translate_output_properties translate v get_type) ::
        translate_output_properties_entries translate typ rest

/-- Element recursion for the list arm (rpc.py line 540). -/
def translate_output_properties_list (translate : String → String)
    (element_type : Option TypeDesc) : List PValue → List PValue
  | [] => []
  | v :: rest =>
      translate_output_properties translate v element_type ::
        translate_output_properties_list translate element_type rest

end

/-- First loop of resolve_outputs (rpc.py lines 568-578): accumulate the
deserialized engine outputs into `all_properties`, translating each key with
the resource's `translate_output_property` and hydrating each value against
the declared type looked up under the untranslated key. -/
def resolve_outputs_accumulate (translate : String → String)
    (types : String → Option TypeDesc) :
    List (String × PValue) → List (String × PValue) → List (String × PValue)
  | [], acc => acc
  | (key, value) :: rest, acc =>
      resolve_outputs_accumulate translate types rest
        (dictSet acc (translate key)
          (translate_output_properties translate value (types key)))

/-- Backfill loop of resolve_outputs (rpc.py lines 580-586): when the run is
not speculative, or legacy-apply compatibility is on, every serialized input
property whose translated key is still absent from `all_properties` is
deserialized (with default `keep_unknowns`), hydrated and inserted. -/
def resolve_outputs_backfill (dry : Bool) (translate : String → String)
    (types : String → Option TypeDesc) :
    List (String × WireValue) → List (String × PValue) →
    Except PyError (List (String × PValue))
  | [], acc => .ok acc
  | (key, value) :: rest, acc =>
      let translated_key := translate key
      if (dictGet acc translated_key).isSome then
        resolve_outputs_backfill dry translate types rest acc
      else
        match deserialize_property dry false value with
        | .error e => .error e
        | .ok v =>
            resolve_outputs_backfill dry translate types rest
              (dictSet acc translated_key
                (translate_output_properties translate v (types key)))

/-- The combined authoritative property set of resolve_outputs: deserialized
engine outputs (which must form a dict: iterating `.items()` over anything
else fails), plus backfilled original inputs when `not dry_run or
legacy_apply` holds. -/
def resolve_outputs_all_properties (dry legacy_apply : Bool)
    (translate : String → String) (types : String → Option TypeDesc)
    (serialized_props : List (String × WireValue))
    (outputs : List (String × WireValue)) :
    Except PyError (List (String × PValue)) :=
  match deserialize_properties dry false outputs with
  | .error e => .error e
  | .ok (.vdict entries) =>
      let all_properties := resolve_outputs_accumulate translate types entries []
      if !dry || legacy_apply then
        resolve_outputs_backfill dry translate types serialized_props all_properties
      else .ok all_properties
  | .ok _ => .error (.valueError "deserialized outputs are not a dict")

/-- Per-resolver outcome of resolve_outputs' two resolution loops (rpc.py
lines 588-637).  The source first walks `all_properties` resolving matching
resolvers (skipping "id"/"urn" and keys with no resolver), then fulfills every
untouched resolver with `(None, not is_dry_run, False)`.  Because
`all_properties` has unique keys, each resolver is written at most once, so
the two loops amount to this per-resolver case split:
* key found in `all_properties` (and not "id"/"urn"): strip a secret wrapper,
  then fulfill with `(value, True, is_secret)` on a real run or
  `(value, value is not None, is_secret)` on a preview;
* key equal to "id"/"urn" that is present in `all_properties`: skipped by the
  first loop, not absent for the second — the slot stays pending;
* key absent from `all_properties`: fulfilled `(None, not dry_run, False)`. -/
def resolve_outputs_assign (dry : Bool)
    (all_properties : List (String × PValue)) (resolvers : List String) :
    List (String × SlotState) :=
  resolvers.map fun key =>
    match dictGet all_properties key with
    | none => (key, do_resolve .vnone (!dry) false none)
    | some value =>
        if key = "id" || key = "urn" then (key, .pending)
        else
          let is_secret := is_rpc_secret value
          let value := unwrap_rpc_secret value
          if !dry then (key, do_resolve value true is_secret none)
          else (key, do_resolve value (!value.isNone) is_secret none)

/-- resolve_outputs (rpc.py lines 561-637): build the authoritative property
set, then deliver a terminal state to every resolver.  `dry` models
`settings.is_dry_run()`, `legacy_apply` models
`settings.is_legacy_apply_enabled()`. -/
def resolve_outputs (dry legacy_apply : Bool) (translate : String → String)
    (types : String → Option TypeDesc)
    (serialized_props : List (String × WireValue))
    (outputs : List (String × WireValue)) (resolvers : List String) :
    Except PyError (List (String × SlotState)) :=
  match resolve_outputs_all_properties dry legacy_apply translate types
      serialized_props outputs with
  | .error e => .error e
  | .ok all_properties => .ok (resolve_outputs_assign dry all_properties resolvers)

mutual

/-- Entities transitively referenced by a value: the entity of every
`CustomResource` plus the resource set of every `Output`, through every
nesting position (lists, dicts, asset/archive fields, input-type renderings,
awaitables, resource identity values, output payloads). -/
def resource_refs : PValue → List Nat
  | .vnone => []
  | .vbool _ => []
  | .vnum _ => []
  | .vstr _ => []
  | .vlist xs => resource_refs_list xs
  | .vdict es => resource_refs_entries es
  | .vunknown => []
  | .vres e idv => e :: resource_refs idv
  | .vasset p t u => resource_refs_opt p ++ resource_refs_opt t ++ resource_refs_opt u
  | .varchive a p u => resource_refs_opt a ++ resource_refs_opt p ++ resource_refs_opt u
  | .vfuture v => resource_refs v
  | .voutput rs _ _ v => rs ++ resource_refs v
  | .vinput es => resource_refs_entries es
  | .villegal _ => []

def resource_refs_list : List PValue → List Nat
  | [] => []
  | x :: xs => resource_refs x ++ resource_refs_list xs

def resource_refs_entries : List (String × PValue) → List Nat
  | [] => []
  | (_, v) :: es => resource_refs v ++ resource_refs_entries es

def resource_refs_opt : Option PValue → List Nat
  | none => []
  | some v => resource_refs v

end

/-- Exactly one of the three alternative asset/archive fields is populated
(the shape contract of FileAsset / StringAsset / RemoteAsset and of
AssetArchive / FileArchive / RemoteArchive). -/
def exactly_one (a b c : Option PValue) : Bool :=
  match a, b, c with
  | some _, none, none => true
  | none, some _, none => true
  | none, none, some _ => true
  | _, _, _ => false

mutual

/-- Every asset and archive in the value has exactly one alternative field
populated, recursively (well-formedness of the asset data model). -/
def wf_assets : PValue → Bool
  | .vnone => true
  | .vbool _ => true
  | .vnum _ => true
  | .vstr _ => true
  | .vlist xs => wf_assets_list xs
  | .vdict es => wf_assets_entries es
  | .vunknown => true
  | .vres _ idv => wf_assets idv
  | .vasset p t u =>
      exactly_one p t u && wf_assets_opt p && wf_assets_opt t && wf_assets_opt u
  | .varchive a p u =>
      exactly_one a p u && wf_assets_opt a && wf_assets_opt p && wf_assets_opt u
  | .vfuture v => wf_assets v
  | .voutput _ _ _ v => wf_assets v
  | .vinput es => wf_assets_entries es
  | .villegal _ => true

def wf_assets_list : List PValue → Bool
  | [] => true
  | x :: xs => wf_assets x && wf_assets_list xs

def wf_assets_entries : List (String × PValue) → Bool
  | [] => true
  | (_, v) :: es => wf_assets v && wf_assets_entries es

def wf_assets_opt : Option PValue → Bool
  | none => true
  | some v => wf_assets v

end

mutual

/-- Native values built only from scalars, lists and string-keyed dicts, with
no string equal to the not-yet-known sentinel, no dict key equal to the
reserved signature key, and pairwise-distinct dict keys (a python dict cannot
hold two entries under one key): the subset on which a wire round trip can be
exact. -/
def plain_value : PValue → Bool
  | .vnone => true
  | .vbool _ => true
  | .vnum _ => true
  | .vstr s => if s = UNKNOWN then false else true
  | .vlist xs => plain_value_list xs
  | .vdict es => keys_nodup es && plain_value_entries es
  | _ => false

def plain_value_list : List PValue → Bool
  | [] => true
  | x :: xs => plain_value x && plain_value_list xs

def plain_value_entries : List (String × PValue) → Bool
  | [] => true
  | (k, v) :: es =>
      (if k = special_sig_key then false else true) && plain_value v &&
        plain_value_entries es

end

mutual

/-- Recursively drop dict entries whose value is `None`, keeping list elements
(including `None` elements) in place: the discrepancy a serialize/deserialize
round trip introduces. -/
def drop_nulls : PValue → PValue
  | .vlist xs => .vlist (drop_nulls_list xs)
  | .vdict es => .vdict (drop_nulls_entries es)
  | v => v

def drop_nulls_list : List PValue → List PValue
  | [] => []
  | x :: xs => drop_nulls x :: drop_nulls_list xs

def drop_nulls_entries : List (String × PValue) → List (String × PValue)
  | [] => []
  | (k, v) :: es =>
      match v with
      | .vnone => drop_nulls_entries es
      | v => (k, drop_nulls v) :: drop_nulls_entries es

end

mutual

/-- Constructor-wise injection of a plain native value into the wire alphabet
(what serialization does on plain values).  Non-plain constructors are mapped
to `null`; the round-trip lemmas only use this on plain values. -/
def to_wire : PValue → WireValue
  | .vnone => .null
  | .vbool b => .bool b
  | .vnum n => .num n
  | .vstr s => .str s
  | .vlist xs => .list (to_wire_list xs)
  | .vdict es => .struct (to_wire_entries es)
  | _ => .null

def to_wire_list : List PValue → List WireValue
  | [] => []
  | x :: xs => to_wire x :: to_wire_list xs

def to_wire_entries : List (String × PValue) → List (String × WireValue)
  | [] => []
  | (k, v) :: es => (k, to_wire v) :: to_wire_entries es

end

/-- Structural induction principle for `PValue` giving membership hypotheses
for values nested in lists, dict entries and optional asset fields. -/
theorem pvalue_induction_on {motive : PValue → Prop}
    (hnone : motive .vnone)
    (hbool : ∀ b, motive (.vbool b))
    (hnum : ∀ n, motive (.vnum n))
    (hstr : ∀ s, motive (.vstr s))
    (hlist : ∀ xs, (∀ x ∈ xs, motive x) → motive (.vlist xs))
    (hdict : ∀ es, (∀ p ∈ es, motive (Prod.snd p)) → motive (.vdict es))
    (hunknown : motive .vunknown)
    (hres : ∀ e idv, motive idv → motive (.vres e idv))
    (hasset : ∀ p t u, (∀ x ∈ p, motive x) → (∀ x ∈ t, motive x) →
      (∀ x ∈ u, motive x) → motive (.vasset p t u))
    (harchive : ∀ a p u, (∀ x ∈ a, motive x) → (∀ x ∈ p, motive x) →
      (∀ x ∈ u, motive x) → motive (.varchive a p u))
    (hfuture : ∀ v, motive v → motive (.vfuture v))
    (houtput : ∀ rs k s v, motive v → motive (.voutput rs k s v))
    (hinput : ∀ es, (∀ p ∈ es, motive (Prod.snd p)) → motive (.vinput es))
    (hillegal : ∀ ty, motive (.villegal ty)) :
    ∀ v, motive v := by
  suffices h : ∀ n (v : PValue), sizeOf v ≤ n → motive v from
    fun v => h (sizeOf v) v (Nat.le_refl _)
  intro n
  induction n with
  | zero =>
      intro v hv
      cases v <;> simp at hv
  | succ n ih =>
      intro v hv
      cases v with
      | vnone => exact hnone
      | vbool b => exact hbool b
      | vnum m => exact hnum m
      | vstr s => exact hstr s
      | vlist xs =>
          refine hlist xs fun x hx => ih x ?_
          have hs := List.sizeOf_lt_sizeOf_of_mem hx
          simp at hv
          omega
      | vdict es =>
          refine hdict es fun p hp => ih p.2 ?_
          have hs := List.sizeOf_lt_sizeOf_of_mem hp
          obtain ⟨a, b⟩ := p
          simp at hv hs ⊢
          omega
      | vunknown => exact hunknown
      | vres e idv =>
          refine hres e idv (ih idv ?_)
          simp at hv
          omega
      | vasset p t u =>
          refine hasset p t u (fun x hx => ih x ?_) (fun x hx => ih x ?_)
            (fun x hx => ih x ?_) <;>
            (rw [Option.mem_def] at hx; subst hx; simp at hv; omega)
      | varchive a p u =>
          refine harchive a p u (fun x hx => ih x ?_) (fun x hx => ih x ?_)
            (fun x hx => ih x ?_) <;>
            (rw [Option.mem_def] at hx; subst hx; simp at hv; omega)
      | vfuture v =>
          refine hfuture v (ih v ?_)
          simp at hv
          omega
      | voutput rs k s v =>
          refine houtput rs k s v (ih v ?_)
          simp at hv
          omega
      | vinput es =>
          refine hinput es fun p hp => ih p.2 ?_
          have hs := List.sizeOf_lt_sizeOf_of_mem hp
          obtain ⟨a, b⟩ := p
          simp at hv hs ⊢
          omega
      | villegal ty => exact hillegal ty

/-- Structural induction principle for `WireValue` giving membership
hypotheses for values nested in lists and struct fields. -/
theorem wirevalue_induction_on {motive : WireValue → Prop}
    (hnull : motive .null)
    (hbool : ∀ b, motive (.bool b))
    (hnum : ∀ n, motive (.num n))
    (hstr : ∀ s, motive (.str s))
    (hlist : ∀ xs, (∀ x ∈ xs, motive x) → motive (.list xs))
    (hstruct : ∀ fs, (∀ p ∈ fs, motive (Prod.snd p)) → motive (.struct fs)) :
    ∀ w, motive w := by
  suffices h : ∀ n (w : WireValue), sizeOf w ≤ n → motive w from
    fun w => h (sizeOf w) w (Nat.le_refl _)
  intro n
  induction n with
  | zero =>
      intro w hw
      cases w <;> simp at hw
  | succ n ih =>
      intro w hw
      cases w with
      | null => exact hnull
      | bool b => exact hbool b
      | num m => exact hnum m
      | str s => exact hstr s
      | list xs =>
          refine hlist xs fun x hx => ih x ?_
          have hs := List.sizeOf_lt_sizeOf_of_mem hx
          simp at hw
          omega
      | struct fs =>
          refine hstruct fs fun p hp => ih p.2 ?_
          have hs := List.sizeOf_lt_sizeOf_of_mem hp
          obtain ⟨a, b⟩ := p
          simp at hw hs ⊢
          omega

/-- Every pair of a python-dict association list after `m[k] = v` is either
the new binding or one of the old ones. -/
theorem mem_dictSet {α : Type} (m : List (String × α)) (k : String) (v : α) :
    ∀ p ∈ dictSet m k v, p = (k, v) ∨ p ∈ m := by
  induction m with
  | nil => intro p hp; simp [dictSet] at hp; simp [hp]
  | cons q rest ih =>
      intro p hp
      obtain ⟨k', v'⟩ := q
      by_cases hk : k' = k
      · simp [dictSet, hk] at hp
        rcases hp with hp | hp
        · exact Or.inl hp
        · exact Or.inr (List.mem_cons_of_mem _ hp)
      · simp [dictSet, hk] at hp
        rcases hp with hp | hp
        · exact Or.inr (by simp [hp])
        · rcases ih p hp with h | h
          · exact Or.inl h
          · exact Or.inr (List.mem_cons_of_mem _ h)

/-- A key absent from a python-dict association list differs from every key
in it. -/
theorem dictGet_none_ne {α : Type} :
    ∀ (m : List (String × α)) (k : String), dictGet m k = none →
      ∀ p ∈ m, Prod.fst p ≠ k := by
  intro m
  induction m with
  | nil => intro k h p hp; simp at hp
  | cons q rest ih =>
      intro k h p hp
      obtain ⟨k', v'⟩ := q
      by_cases hk : k' = k
      · simp [dictGet, hk] at h
      · simp [dictGet, hk] at h
        rcases List.mem_cons.1 hp with hp' | hp'
        · subst hp'
          simpa using hk
        · exact ih k h p hp'

/-- Python dict assignment with a fresh key appends the binding. -/
theorem dictSet_fresh {α : Type} :
    ∀ (m : List (String × α)) (k : String) (v : α), dictGet m k = none →
      dictSet m k v = m ++ [(k, v)] := by
  intro m
  induction m with
  | nil => intro k v h; simp [dictSet]
  | cons q rest ih =>
      intro k v h
      obtain ⟨k', v'⟩ := q
      by_cases hk : k' = k
      · simp [dictGet, hk] at h
      · simp [dictGet, hk] at h
        simp [dictSet, hk, ih k v h]

/-- Lookup distributes over append, preferring the left list. -/
theorem dictGet_append {α : Type} :
    ∀ (m1 m2 : List (String × α)) (k : String),
      dictGet (m1 ++ m2) k =
        match dictGet m1 k with
        | some v => some v
        | none => dictGet m2 k := by
  intro m1
  induction m1 with
  | nil => intro m2 k; simp [dictGet]
  | cons q rest ih =>
      intro m2 k
      obtain ⟨k', v'⟩ := q
      by_cases hk : k' = k
      · simp [dictGet, hk]
      · simp [dictGet, hk, ih m2 k]

/-- Python dict assignment preserves the key list shape: two dicts with equal
key lists keep equal key lists after assigning (any values) under one key. -/
theorem dictSet_keys_congr {α β : Type} :
    ∀ (m1 : List (String × α)) (m2 : List (String × β)) (k : String) v1 v2,
      m1.map Prod.fst = m2.map Prod.fst →
      (dictSet m1 k v1).map Prod.fst = (dictSet m2 k v2).map Prod.fst := by
  intro m1
  induction m1 with
  | nil =>
      intro m2 k v1 v2 hkeys
      have hm2 : m2 = [] := by
        cases m2 with
        | nil => rfl
        | cons q r => simp at hkeys
      subst hm2
      simp [dictSet]
  | cons q1 r1 ih =>
      intro m2 k v1 v2 hkeys
      obtain ⟨k1, w1⟩ := q1
      cases m2 with
      | nil => simp at hkeys
      | cons q2 r2 =>
          obtain ⟨k2, w2⟩ := q2
          simp at hkeys
          obtain ⟨hk12, hrest⟩ := hkeys
          subst hk12
          by_cases hk : k1 = k
          · simp [dictSet, hk, hrest]
          · simp [dictSet, hk]
            exact ih r2 k v1 v2 hrest

/-- The dependency list only grows across element-wise list serialization,
assuming it only grows for each element. -/
theorem serialize_property_list_deps_grow (tr : Option (String → String)) (ss : Bool)
    (xs : List PValue)
    (hmem : ∀ x ∈ xs, ∀ deps w deps',
      serialize_property tr ss x deps = .ok (w, deps') → deps <+: deps') :
    ∀ deps ws deps',
      serialize_property_list tr ss xs deps = .ok (ws, deps') → deps <+: deps' := by
  induction xs with
  | nil =>
      intro deps ws deps' h
      simp [serialize_property_list] at h
      exact h.2 ▸ List.prefix_refl _
  | cons x rest ih =>
      intro deps ws deps' h
      rw [serialize_property_list] at h
      split at h
      · exact absurd h (by simp)
      · rename_i w deps1 heq1
        split at h
        · exact absurd h (by simp)
        · rename_i ws1 deps2 heq2
          simp at h
          have h1 := hmem x (by simp) deps w deps1 heq1
          have h2 := ih (fun y hy => hmem y (by simp [hy])) deps1 ws1 deps2 heq2
          exact h.2 ▸ h1.trans h2

/-- The dependency list only grows across entry-wise dict serialization,
assuming it only grows for each entry value. -/
theorem serialize_property_entries_deps_grow (tr : Option (String → String)) (ss : Bool)
    (tk : Bool) (es : List (String × PValue))
    (hmem : ∀ p ∈ es, ∀ deps w deps',
      serialize_property tr ss (Prod.snd p) deps = .ok (w, deps') → deps <+: deps') :
    ∀ obj deps ws deps',
      serialize_property_entries tr ss tk es obj deps = .ok (ws, deps') →
      deps <+: deps' := by
  induction es with
  | nil =>
      intro obj deps ws deps' h
      simp [serialize_property_entries] at h
      exact h.2 ▸ List.prefix_refl _
  | cons p rest ih =>
      intro obj deps ws deps' h
      obtain ⟨k, v⟩ := p
      simp only [serialize_property_entries] at h
      split at h
      · exact absurd h (by simp)
      · rename_i w deps1 heq1
        have h1 := hmem (k, v) (by simp) deps w deps1 heq1
        have h2 := ih (fun q hq => hmem q (by simp [hq])) _ deps1 ws deps' h
        exact h1.trans h2

/-- serialize_property only ever appends to the `deps` accumulator: the
incoming list is a prefix of the outgoing one. -/
theorem serialize_property_deps_grow (tr : Option (String → String)) (ss : Bool) :
    ∀ v deps w deps',
      serialize_property tr ss v deps = .ok (w, deps') → deps <+: deps' := by
  intro v
  induction v using pvalue_induction_on with
  | hnone =>
      intro deps w deps' h
      simp [serialize_property] at h
      exact h.2 ▸ List.prefix_refl _
  | hbool b =>
      intro deps w deps' h
      simp [serialize_property] at h
      exact h.2 ▸ List.prefix_refl _
  | hnum n =>
      intro deps w deps' h
      simp [serialize_property] at h
      exact h.2 ▸ List.prefix_refl _
  | hstr s =>
      intro deps w deps' h
      simp [serialize_property] at h
      exact h.2 ▸ List.prefix_refl _
  | hlist xs ihs =>
      intro deps w deps' h
      rw [serialize_property] at h
      split at h
      · exact absurd h (by simp)
      · rename_i ws deps1 heq
        simp at h
        exact h.2 ▸ serialize_property_list_deps_grow tr ss xs ihs deps ws deps1 heq
  | hdict es ihs =>
      intro deps w deps' h
      rw [serialize_property] at h
      split at h
      · exact absurd h (by simp)
      · rename_i ws deps1 heq
        simp at h
        exact h.2 ▸ serialize_property_entries_deps_grow tr ss true es ihs [] deps ws deps1 heq
  | hunknown =>
      intro deps w deps' h
      simp [serialize_property] at h
      exact h.2 ▸ List.prefix_refl _
  | hres e idv ih =>
      intro deps w deps' h
      rw [serialize_property] at h
      have := ih (deps ++ [e]) w deps' h
      exact ((deps.prefix_append [e]).trans this)
  | hasset p t u ihp iht ihu =>
      intro deps w deps' h
      rcases p with _ | pv
      · rcases t with _ | tv
        · rcases u with _ | uv
          · exact absurd h (by simp [serialize_property])
          · simp only [serialize_property] at h
            split at h
            · exact absurd h (by simp)
            · rename_i w1 deps1 heq
              simp at h
              exact h.2 ▸ ihu uv (by simp) deps w1 deps1 heq
        · simp only [serialize_property] at h
          split at h
          · exact absurd h (by simp)
          · rename_i w1 deps1 heq
            simp at h
            exact h.2 ▸ iht tv (by simp) deps w1 deps1 heq
      · simp only [serialize_property] at h
        split at h
        · exact absurd h (by simp)
        · rename_i w1 deps1 heq
          simp at h
          exact h.2 ▸ ihp pv (by simp) deps w1 deps1 heq
  | harchive a p u iha ihp ihu =>
      intro deps w deps' h
      rcases a with _ | av
      · rcases p with _ | pv
        · rcases u with _ | uv
          · exact absurd h (by simp [serialize_property])
          · simp only [serialize_property] at h
            split at h
            · exact absurd h (by simp)
            · rename_i w1 deps1 heq
              simp at h
              exact h.2 ▸ ihu uv (by simp) deps w1 deps1 heq
        · simp only [serialize_property] at h
          split at h
          · exact absurd h (by simp)
          · rename_i w1 deps1 heq
            simp at h
            exact h.2 ▸ ihp pv (by simp) deps w1 deps1 heq
      · simp only [serialize_property] at h
        split at h
        · exact absurd h (by simp)
        · rename_i w1 deps1 heq
          simp at h
          exact h.2 ▸ iha av (by simp) deps w1 deps1 heq
  | hfuture v ih =>
      intro deps w deps' h
      rw [serialize_property] at h
      exact ih deps w deps' h
  | houtput rs k s v ih =>
      intro deps w deps' h
      rw [serialize_property] at h
      split at h
      · exact absurd h (by simp)
      · rename_i w1 deps1 heq
        have h1 := (deps.prefix_append rs).trans (ih (deps ++ rs) w1 deps1 heq)
        split at h
        · simp at h
          exact h.2 ▸ h1
        · split at h
          · simp at h
            exact h.2 ▸ h1
          · simp at h
            exact h.2 ▸ h1
  | hinput es ihs =>
      intro deps w deps' h
      rw [serialize_property] at h
      split at h
      · exact absurd h (by simp)
      · rename_i ws deps1 heq
        simp at h
        exact h.2 ▸ serialize_property_entries_deps_grow tr ss false es ihs [] deps ws deps1 heq
  | hillegal ty =>
      intro deps w deps' h
      simp [serialize_property] at h

/-- Completeness of dependency collection over a serialized list, assuming it
for each element. -/
theorem serialize_property_list_refs (tr : Option (String → String)) (ss : Bool)
    (xs : List PValue)
    (hmem : ∀ x ∈ xs, wf_assets x = true → ∀ deps w deps',
      serialize_property tr ss x deps = .ok (w, deps') →
      ∀ e ∈ resource_refs x, e ∈ deps')
    (hwf : wf_assets_list xs = true) :
    ∀ deps ws deps', serialize_property_list tr ss xs deps = .ok (ws, deps') →
      ∀ e ∈ resource_refs_list xs, e ∈ deps' := by
  induction xs with
  | nil =>
      intro deps ws deps' h e he
      simp [resource_refs_list] at he
  | cons x rest ih =>
      intro deps ws deps' h e he
      simp [wf_assets_list] at hwf
      rw [serialize_property_list] at h
      split at h
      · exact absurd h (by simp)
      · rename_i w deps1 heq1
        split at h
        · exact absurd h (by simp)
        · rename_i ws1 deps2 heq2
          simp at h
          simp [resource_refs_list] at he
          rcases he with he | he
          · have h1 := hmem x (by simp) hwf.1 deps w deps1 heq1 e he
            have h2 := serialize_property_list_deps_grow tr ss rest
              (fun y hy => serialize_property_deps_grow tr ss y) deps1 ws1 deps2 heq2
            exact h.2 ▸ h2.subset h1
          · exact h.2 ▸ ih (fun y hy => hmem y (by simp [hy])) hwf.2 deps1 ws1 deps2 heq2 e he

/-- Completeness of dependency collection over serialized dict entries,
assuming it for each entry value. -/
theorem serialize_property_entries_refs (tr : Option (String → String)) (ss : Bool)
    (tk : Bool) (es : List (String × PValue))
    (hmem : ∀ p ∈ es, wf_assets (Prod.snd p) = true → ∀ deps w deps',
      serialize_property tr ss (Prod.snd p) deps = .ok (w, deps') →
      ∀ e ∈ resource_refs (Prod.snd p), e ∈ deps')
    (hwf : wf_assets_entries es = true) :
    ∀ obj deps ws deps',
      serialize_property_entries tr ss tk es obj deps = .ok (ws, deps') →
      ∀ e ∈ resource_refs_entries es, e ∈ deps' := by
  induction es with
  | nil =>
      intro obj deps ws deps' h e he
      simp [resource_refs_entries] at he
  | cons p rest ih =>
      intro obj deps ws deps' h e he
      obtain ⟨k, v⟩ := p
      simp [wf_assets_entries] at hwf
      simp only [serialize_property_entries] at h
      split at h
      · exact absurd h (by simp)
      · rename_i w deps1 heq1
        simp [resource_refs_entries] at he
        rcases he with he | he
        · have h1 := hmem (k, v) (by simp) hwf.1 deps w deps1 heq1 e he
          have h2 := serialize_property_entries_deps_grow tr ss tk rest
            (fun q hq => serialize_property_deps_grow tr ss q.2) _ deps1 ws deps' h
          exact h2.subset h1
        · exact ih (fun q hq => hmem q (by simp [hq])) hwf.2 _ deps1 ws deps' h e he

/-- Dependency completeness of serialize_property: on success, starting from
any accumulator, every transitively referenced entity of a well-formed value
(every asset/archive has exactly one populated field) is in the final
accumulator. -/
theorem serialize_property_refs (tr : Option (String → String)) (ss : Bool) :
    ∀ v, wf_assets v = true → ∀ deps w deps',
      serialize_property tr ss v deps = .ok (w, deps') →
      ∀ e ∈ resource_refs v, e ∈ deps' := by
  intro v
  induction v using pvalue_induction_on with
  | hnone => intro _ deps w deps' h e he; simp [resource_refs] at he
  | hbool b => intro _ deps w deps' h e he; simp [resource_refs] at he
  | hnum n => intro _ deps w deps' h e he; simp [resource_refs] at he
  | hstr s => intro _ deps w deps' h e he; simp [resource_refs] at he
  | hunknown => intro _ deps w deps' h e he; simp [resource_refs] at he
  | hillegal ty => intro _ deps w deps' h e he; simp [serialize_property] at h
  | hlist xs ihs =>
      intro hwf deps w deps' h e he
      rw [serialize_property] at h
      split at h
      · exact absurd h (by simp)
      · rename_i ws deps1 heq
        simp at h
        rw [wf_assets] at hwf
        rw [resource_refs] at he
        exact h.2 ▸ serialize_property_list_refs tr ss xs ihs hwf deps ws deps1 heq e he
  | hdict es ihs =>
      intro hwf deps w deps' h e he
      rw [serialize_property] at h
      split at h
      · exact absurd h (by simp)
      · rename_i ws deps1 heq
        simp at h
        rw [wf_assets] at hwf
        rw [resource_refs] at he
        exact h.2 ▸ serialize_property_entries_refs tr ss true es ihs hwf [] deps ws deps1 heq e he
  | hinput es ihs =>
      intro hwf deps w deps' h e he
      rw [serialize_property] at h
      split at h
      · exact absurd h (by simp)
      · rename_i ws deps1 heq
        simp at h
        rw [wf_assets] at hwf
        rw [resource_refs] at he
        exact h.2 ▸ serialize_property_entries_refs tr ss false es ihs hwf [] deps ws deps1 heq e he
  | hres e' idv ih =>
      intro hwf deps w deps' h e he
      rw [serialize_property] at h
      rw [wf_assets] at hwf
      rw [resource_refs] at he
      rcases List.mem_cons.1 he with he | he
      · subst he
        exact (serialize_property_deps_grow tr ss idv (deps ++ [e]) w deps' h).subset
          (by simp)
      · exact ih hwf (deps ++ [e']) w deps' h e he
  | hfuture v ih =>
      intro hwf deps w deps' h e he
      rw [serialize_property] at h
      rw [wf_assets] at hwf
      rw [resource_refs] at he
      exact ih hwf deps w deps' h e he
  | houtput rs k s v ih =>
      intro hwf deps w deps' h e he
      rw [serialize_property] at h
      rw [wf_assets] at hwf
      rw [resource_refs] at he
      split at h
      · exact absurd h (by simp)
      · rename_i w1 deps1 heq
        have hpre := serialize_property_deps_grow tr ss v (deps ++ rs) w1 deps1 heq
        have hin : ∀ x ∈ resource_refs v ++ rs, x ∈ deps1 := by
          intro x hx
          rcases List.mem_append.1 hx with hx | hx
          · exact ih hwf (deps ++ rs) w1 deps1 heq x hx
          · exact hpre.subset (by simp [hx])
        have hdeps1 : e ∈ deps1 := by
          rcases List.mem_append.1 he with he | he
          · exact hin e (by simp [he])
          · exact hin e (by simp [he])
        split at h
        · simp at h
          exact h.2 ▸ hdeps1
        · split at h
          · simp at h
            exact h.2 ▸ hdeps1
          · simp at h
            exact h.2 ▸ hdeps1
  | hasset p t u ihp iht ihu =>
      intro hwf deps w deps' h e he
      rw [wf_assets] at hwf
      rw [resource_refs] at he
      simp only [Bool.and_eq_true] at hwf
      rcases p with _ | pv <;> rcases t with _ | tv <;> rcases u with _ | uv <;>
        simp [exactly_one, wf_assets_opt] at hwf
      · simp only [serialize_property] at h
        split at h
        · exact absurd h (by simp)
        · rename_i w1 deps1 heq
          simp at h
          simp [resource_refs_opt] at he
          exact h.2 ▸ ihu uv (by simp) hwf deps w1 deps1 heq e he
      · simp only [serialize_property] at h
        split at h
        · exact absurd h (by simp)
        · rename_i w1 deps1 heq
          simp at h
          simp [resource_refs_opt] at he
          exact h.2 ▸ iht tv (by simp) hwf deps w1 deps1 heq e he
      · simp only [serialize_property] at h
        split at h
        · exact absurd h (by simp)
        · rename_i w1 deps1 heq
          simp at h
          simp [resource_refs_opt] at he
          exact h.2 ▸ ihp pv (by simp) hwf deps w1 deps1 heq e he
  | harchive a p u iha ihp ihu =>
      intro hwf deps w deps' h e he
      rw [wf_assets] at hwf
      rw [resource_refs] at he
      simp only [Bool.and_eq_true] at hwf
      rcases a with _ | av <;> rcases p with _ | pv <;> rcases u with _ | uv <;>
        simp [exactly_one, wf_assets_opt] at hwf
      · simp only [serialize_property] at h
        split at h
        · exact absurd h (by simp)
        · rename_i w1 deps1 heq
          simp at h
          simp [resource_refs_opt] at he
          exact h.2 ▸ ihu uv (by simp) hwf deps w1 deps1 heq e he
      · simp only [serialize_property] at h
        split at h
        · exact absurd h (by simp)
        · rename_i w1 deps1 heq
          simp at h
          simp [resource_refs_opt] at he
          exact h.2 ▸ ihp pv (by simp) hwf deps w1 deps1 heq e he
      · simp only [serialize_property] at h
        split at h
        · exact absurd h (by simp)
        · rename_i w1 deps1 heq
          simp at h
          simp [resource_refs_opt] at he
          exact h.2 ▸ iha av (by simp) hwf deps w1 deps1 heq e he

/-- The top-level struct built by serialize_properties never holds a null
value: the loop only inserts results that are not `None`. -/
theorem serialize_properties_go_no_null (tr : Option (String → String)) (ss : Bool) :
    ∀ (inputs : List (String × PValue)) struct pdeps out_struct out_pdeps,
      (∀ p ∈ struct, Prod.snd p ≠ WireValue.null) →
      serialize_properties_go tr ss inputs struct pdeps = .ok (out_struct, out_pdeps) →
      ∀ p ∈ out_struct, Prod.snd p ≠ WireValue.null := by
  intro inputs
  induction inputs with
  | nil =>
      intro struct pdeps out_struct out_pdeps hinv h
      simp [serialize_properties_go] at h
      exact h.1 ▸ hinv
  | cons q rest ih =>
      intro struct pdeps out_struct out_pdeps hinv h
      obtain ⟨k, v⟩ := q
      simp only [serialize_properties_go] at h
      split at h
      · exact absurd h (by simp)
      · rename_i result deps heq
        split at h
        · exact ih struct pdeps out_struct out_pdeps hinv h
        · rename_i hr
          refine ih _ _ out_struct out_pdeps ?_ h
          intro p hp
          rcases mem_dictSet struct _ result p hp with hp' | hp'
          · subst hp'
            simpa using hr
          · exact hinv p hp'

/-- serialize_property on a dict yields a struct with exactly one field per
entry (no entry is dropped, whatever its value serialized to). -/
theorem serialize_property_entries_length (tr : Option (String → String)) (ss : Bool)
    (tk : Bool) :
    ∀ (es : List (String × PValue)) obj deps ws deps',
      List.Nodup (es.map fun p => transformed_key tr tk (Prod.fst p)) →
      (∀ p ∈ es, dictGet obj (transformed_key tr tk (Prod.fst p)) = none) →
      serialize_property_entries tr ss tk es obj deps = .ok (ws, deps') →
      ws.length = obj.length + es.length := by
  intro es
  induction es with
  | nil =>
      intro obj deps ws deps' hnd hfresh h
      simp [serialize_property_entries] at h
      simp [← h.1]
  | cons p rest ih =>
      intro obj deps ws deps' hnd hfresh h
      obtain ⟨k, v⟩ := p
      simp only [List.map_cons, List.nodup_cons] at hnd
      obtain ⟨hknotin, hndrest⟩ := hnd
      simp only [serialize_property_entries] at h
      split at h
      · exact absurd h (by simp)
      · rename_i w deps1 heq1
        have hobjk : dictGet obj (transformed_key tr tk k) = none :=
          hfresh (k, v) (by simp)
        rw [dictSet_fresh obj _ w hobjk] at h
        have hfresh' : ∀ q ∈ rest,
            dictGet (obj ++ [(transformed_key tr tk k, w)])
              (transformed_key tr tk (Prod.fst q)) = none := by
          intro q hq
          rw [dictGet_append]
          rw [hfresh q (by simp [hq])]
          have hne : transformed_key tr tk (Prod.fst q) ≠ transformed_key tr tk k := by
            intro hc
            exact hknotin (List.mem_map.2 ⟨q, hq, hc⟩)
          simp [dictGet]
          exact fun hc => hne hc.symm
        have := ih (obj ++ [(transformed_key tr tk k, w)]) deps1 ws deps'
          hndrest hfresh' h
        simp at this ⊢
        omega

/-- C1: a top-level property of serialize_properties that serializes to None
is dropped from the wire struct, but an entry of a nested dict serialized by
serialize_property is NOT dropped: this counterexample serializes the nested
dict value for key "a", whose value serializes to Null, and the entry stays
in the wire map as an explicit Null — refuting the claim that nested
null-valued entries are omitted. -/
theorem serialize_nested_null_entry_kept :
    serialize_property none false (.vdict [("a", .vnone)]) [] =
      .ok (.struct [("a", .null)], []) := by
  rfl

/-- The top-level loop updates the struct and property_deps under the same
translated key, under the same non-null condition: on success their key lists
are identical, so a property dropped from one is dropped from the other. -/
theorem serialize_properties_go_keys (tr : Option (String → String)) (ss : Bool) :
    ∀ (inputs : List (String × PValue)) struct pdeps out_struct out_pdeps,
      struct.map Prod.fst = pdeps.map Prod.fst →
      serialize_properties_go tr ss inputs struct pdeps = .ok (out_struct, out_pdeps) →
      out_struct.map Prod.fst = out_pdeps.map Prod.fst := by
  intro inputs
  induction inputs with
  | nil =>
      intro struct pdeps out_struct out_pdeps hkeys h
      simp [serialize_properties_go] at h
      exact h.1 ▸ h.2 ▸ hkeys
  | cons q rest ih =>
      intro struct pdeps out_struct out_pdeps hkeys h
      obtain ⟨k, v⟩ := q
      simp only [serialize_properties_go] at h
      split at h
      · exact absurd h (by simp)
      · rename_i result deps heq
        split at h
        · exact ih struct pdeps out_struct out_pdeps hkeys h
        · exact ih _ _ out_struct out_pdeps
            (dictSet_keys_congr struct pdeps _ result deps hkeys) h

/-- C1 (amended): only top-level properties are null-dropped.  On success,
(i) no field of the struct built by serialize_properties is Null — and the
struct and property_deps always carry the same key list, so a top-level
property serializing to None is omitted from both; (ii) serialize_property on
a nested dict returns a struct, and whenever the transformed entry keys are
pairwise distinct (always true for a real python dict when no
input_transformer is supplied) it has exactly one field per dict entry: a
nested entry whose value serializes to Null is kept as an explicit Null
field, and can only ever disappear by a later entry's colliding transformed
key overwriting it (python dict assignment). -/
theorem serialize_null_dropping_top_level_only :
    (∀ (tr : Option (String → String)) (ss : Bool) inputs struct pdeps,
      serialize_properties tr ss inputs = .ok (struct, pdeps) →
      (∀ p ∈ struct, Prod.snd p ≠ WireValue.null) ∧
      struct.map Prod.fst = pdeps.map Prod.fst) ∧
    (∀ (tr : Option (String → String)) (ss : Bool) entries deps w deps',
      serialize_property tr ss (.vdict entries) deps = .ok (w, deps') →
      ∃ fields, w = WireValue.struct fields ∧
        (List.Nodup (entries.map fun p => transformed_key tr true (Prod.fst p)) →
          fields.length = entries.length)) := by
  constructor
  · intro tr ss inputs struct pdeps h
    constructor
    · exact fun p hp => serialize_properties_go_no_null tr ss inputs [] [] struct
        pdeps (by simp) h p hp
    · exact serialize_properties_go_keys tr ss inputs [] [] struct pdeps rfl h
  · intro tr ss entries deps w deps' h
    rw [serialize_property] at h
    split at h
    · exact absurd h (by simp)
    · rename_i ws deps1 heq
      simp at h
      refine ⟨ws, h.1 ▸ rfl, fun hnd => ?_⟩
      have := serialize_property_entries_length tr ss true entries [] deps ws
        deps1 hnd (by simp [dictGet]) heq
      simpa using this

/-- Witness for C1 (amended): instantiates both parts on concrete inputs —
the bag {"a": "x", "b": None} keeps only the non-null "a" in both the struct
and property_deps, and the nested dict {"a": None} (distinct keys, no
transformer) keeps its single entry. -/
theorem serialize_null_dropping_top_level_only_witness :
    WireValue.str "x" ≠ WireValue.null ∧
    ([("a", WireValue.str "x")].map Prod.fst =
      ([("a", ([] : List Nat))].map Prod.fst)) ∧
    ∃ fields, WireValue.struct [("a", WireValue.null)] = WireValue.struct fields ∧
      fields.length = [("a", PValue.vnone)].length := by
  have h1 := serialize_null_dropping_top_level_only.1 none false
    [("a", .vstr "x"), ("b", .vnone)] [("a", .str "x")] [("a", [])] (by rfl)
  have h2 := serialize_null_dropping_top_level_only.2 none false
    [("a", PValue.vnone)] [] (.struct [("a", .null)]) [] (by rfl)
  obtain ⟨fields, hf, hlen⟩ := h2
  exact ⟨h1.1 ("a", .str "x") (by simp), h1.2,
    ⟨fields, hf, hlen (by simp [transformed_key])⟩⟩

/-- C2: a ManagedOutput whose is-known flag is false serializes to the UNKNOWN
sentinel string whatever its underlying value is (provided the underlying
value itself serializes, since the source serializes the payload before
consulting is_known); and deserializing the sentinel yields the explicit
Unknown marker on a dry run or when keep_unknowns is set, and Null
otherwise. -/
theorem unknown_output_serialization :
    (∀ (tr : Option (String → String)) (ss : Bool) rs secret v deps w deps',
      serialize_property tr ss v (deps ++ rs) = .ok (w, deps') →
      serialize_property tr ss (.voutput rs false secret v) deps =
        .ok (.str UNKNOWN, deps')) ∧
    (∀ dry keep,
      deserialize_property dry keep (.str UNKNOWN) =
        .ok (if dry || keep then PValue.vunknown else PValue.vnone)) := by
  constructor
  · intro tr ss rs secret v deps w deps' h
    rw [serialize_property]
    rw [h]
    simp
  · intro dry keep
    simp [deserialize_property]

/-- Witness for C2: an unknown output over the string "x" with one dependency
serializes to the sentinel, and the sentinel deserializes to the Unknown
marker during preview and to Null otherwise. -/
theorem unknown_output_serialization_witness :
    serialize_property none false (.voutput [3] false true (.vstr "x")) [] =
      .ok (.str UNKNOWN, [3]) ∧
    deserialize_property true false (.str UNKNOWN) = .ok PValue.vunknown ∧
    deserialize_property false false (.str UNKNOWN) = .ok PValue.vnone := by
  refine ⟨unknown_output_serialization.1 none false [3] true (.vstr "x") []
    (.str "x") [3] (by rfl), ?_, ?_⟩
  · have h := unknown_output_serialization.2 true false
    simpa using h
  · have h := unknown_output_serialization.2 false false
    simpa using h

/-- C3 counterexample: an asset-like value with BOTH path and text populated
does not fail validation — serialization succeeds, using the path field and
silently ignoring text, refuting the claim that more than one populated
alternative field causes a ValidationError. -/
theorem asset_two_fields_serializes :
    serialize_property none false
        (.vasset (some (.vstr "p")) (some (.vstr "t")) none) [] =
      .ok (.struct [(special_sig_key, .str special_asset_sig), ("path", .str "p")], []) := by
  rfl

/-- C3 (amended): an asset/archive with none of its alternative fields
populated fails the serialize call with an error (`AssertionError` in the
source, the spec's ValidationError); with more than one populated no error is
raised — the first populated field in the fixed probe order (path, text, uri
for assets; assets, path, uri for archives) wins and the rest are ignored. -/
theorem asset_archive_field_validation :
    (∀ (tr : Option (String → String)) (ss : Bool) deps,
      serialize_property tr ss (.vasset none none none) deps =
        .error (.assertionError "unknown asset type")) ∧
    (∀ (tr : Option (String → String)) (ss : Bool) deps,
      serialize_property tr ss (.varchive none none none) deps =
        .error (.assertionError "unknown archive type")) ∧
    (∀ (tr : Option (String → String)) (ss : Bool) pv t u deps,
      serialize_property tr ss (.vasset (some pv) t u) deps =
        match serialize_property tr ss pv deps with
        | .error e => .error e
        | .ok (w, deps') =>
            .ok (.struct [(special_sig_key, .str special_asset_sig), ("path", w)], deps')) ∧
    (∀ (tr : Option (String → String)) (ss : Bool) tv u deps,
      serialize_property tr ss (.vasset none (some tv) u) deps =
        match serialize_property tr ss tv deps with
        | .error e => .error e
        | .ok (w, deps') =>
            .ok (.struct [(special_sig_key, .str special_asset_sig), ("text", w)], deps')) ∧
    (∀ (tr : Option (String → String)) (ss : Bool) av p u deps,
      serialize_property tr ss (.varchive (some av) p u) deps =
        match serialize_property tr ss av deps with
        | .error e => .error e
        | .ok (w, deps') =>
            .ok (.struct [(special_sig_key, .str special_archive_sig), ("assets", w)], deps')) ∧
    (∀ (tr : Option (String → String)) (ss : Bool) pv u deps,
      serialize_property tr ss (.varchive none (some pv) u) deps =
        match serialize_property tr ss pv deps with
        | .error e => .error e
        | .ok (w, deps') =>
            .ok (.struct [(special_sig_key, .str special_archive_sig), ("path", w)], deps')) := by
  refine ⟨fun tr ss deps => by rw [serialize_property],
         fun tr ss deps => by rw [serialize_property],
         fun tr ss pv t u deps => by rw [serialize_property],
         fun tr ss tv u deps => by rw [serialize_property],
         fun tr ss av p u deps => by rw [serialize_property],
         fun tr ss pv u deps => by rw [serialize_property]⟩

/-- C4: on successful serialization of a well-formed value (every asset and
archive populating exactly one alternative field, as the asset data model
guarantees), every transitively referenced entity — through lists, dicts,
asset/archive payloads, input-type renderings, awaitables, resource identity
values and output payloads — appears in the final deps accumulator. -/
theorem serialize_property_dependency_completeness
    (tr : Option (String → String)) (ss : Bool) (v : PValue) (w : WireValue)
    (deps' : List Nat) (hwf : wf_assets v = true)
    (h : serialize_property tr ss v [] = .ok (w, deps')) :
    ∀ e ∈ resource_refs v, e ∈ deps' :=
  serialize_property_refs tr ss v hwf [] w deps' h

/-- Witness for C4: a dict holding a list with a resource reference (entity 7)
and an output depending on entity 3 serializes with deps [7, 3], and both
referenced entities are found. -/
theorem serialize_property_dependency_completeness_witness :
    wf_assets (.vdict [("a", .vlist
      [.vres 7 (.vstr "id"), .voutput [3] true false (.vnum 1)])]) = true ∧
    7 ∈ ([7, 3] : List Nat) ∧ 3 ∈ ([7, 3] : List Nat) := by
  refine ⟨by rfl, ?_, ?_⟩
  · exact serialize_property_dependency_completeness none false
      (.vdict [("a", .vlist [.vres 7 (.vstr "id"), .voutput [3] true false (.vnum 1)])])
      (.struct [("a", .list [.str "id", .num 1])]) [7, 3] (by rfl) (by rfl) 7
      (by simp [resource_refs, resource_refs_entries, resource_refs_list])
  · exact serialize_property_dependency_completeness none false
      (.vdict [("a", .vlist [.vres 7 (.vstr "id"), .voutput [3] true false (.vnum 1)])])
      (.struct [("a", .list [.str "id", .num 1])]) [7, 3] (by rfl) (by rfl) 3
      (by simp [resource_refs, resource_refs_entries, resource_refs_list])

/-- C8: resolve_outputs_due_to_exception poisons every slot of the resolver
map with the given failure: the resulting map covers exactly the resolver
keys, and awaiting any slot's value, known, or secret cell raises that same
exception. -/
theorem resolve_outputs_due_to_exception_poisons
    (resolvers : List String) (exn : Nat) :
    (resolve_outputs_due_to_exception resolvers exn).map Prod.fst = resolvers ∧
    ∀ p ∈ resolve_outputs_due_to_exception resolvers exn,
      Prod.snd p = SlotState.poisoned exn ∧
      await_value (Prod.snd p) = some (.error exn) ∧
      await_known (Prod.snd p) = some (.error exn) ∧
      await_secret (Prod.snd p) = some (.error exn) := by
  constructor
  · induction resolvers with
    | nil => rfl
    | cons a rest ih => simpa [resolve_outputs_due_to_exception] using ih
  · intro p hp
    simp [resolve_outputs_due_to_exception, do_resolve] at hp
    obtain ⟨k, hk, hkp⟩ := hp
    rw [← hkp]
    simp [await_value, await_known, await_secret]

/-- Witness for C8: poisoning resolvers {a, b} with exception 0 covers both
keys and makes awaiting slot a's value cell raise exception 0. -/
theorem resolve_outputs_due_to_exception_poisons_witness :
    (resolve_outputs_due_to_exception ["a", "b"] 0).map Prod.fst = ["a", "b"] ∧
    await_value (SlotState.poisoned 0) = some (.error 0) :=
  ⟨(resolve_outputs_due_to_exception_poisons ["a", "b"] 0).1,
   ((resolve_outputs_due_to_exception_poisons ["a", "b"] 0).2
      ("a", SlotState.poisoned 0)
      (by simp [resolve_outputs_due_to_exception, do_resolve])).2.1⟩

/-- C9: any resolver whose property name is absent from the combined
authoritative property set is fulfilled with value Null, known equal to "this
run is not a dry run", and secret false. -/
theorem resolve_outputs_absent_resolver_default
    (dry legacy : Bool) (translate : String → String)
    (types : String → Option TypeDesc)
    (sprops outputs : List (String × WireValue)) (resolvers : List String)
    (allp : List (String × PValue)) (st : List (String × SlotState))
    (hall : resolve_outputs_all_properties dry legacy translate types sprops
      outputs = .ok allp)
    (hro : resolve_outputs dry legacy translate types sprops outputs resolvers =
      .ok st) :
    ∀ k ∈ resolvers, dictGet allp k = none →
      (k, SlotState.fulfilled .vnone (!dry) false) ∈ st := by
  intro k hk hnone
  rw [resolve_outputs] at hro
  rw [hall] at hro
  simp at hro
  subst hro
  have harm : (fun key =>
      match dictGet allp key with
      | none => (key, do_resolve .vnone (!dry) false none)
      | some value =>
          if key = "id" || key = "urn" then (key, SlotState.pending)
          else
            let is_secret := is_rpc_secret value
            let value := unwrap_rpc_secret value
            if !dry then (key, do_resolve value true is_secret none)
            else (key, do_resolve value (!value.isNone) is_secret none)) k =
      (k, SlotState.fulfilled .vnone (!dry) false) := by
    simp [hnone, do_resolve]
  exact harm ▸ List.mem_map_of_mem _ hk

/-- Witness for C9: with no engine outputs, no inputs and one declared
resolver "x" on a real run, slot "x" is fulfilled with (Null, known=true,
secret=false). -/
theorem resolve_outputs_absent_resolver_default_witness :
    ("x", SlotState.fulfilled .vnone true false) ∈
      [("x", SlotState.fulfilled .vnone true false)] := by
  have h := resolve_outputs_absent_resolver_default false false (fun k => k)
    (fun _ => none) [] [] ["x"] [] [("x", SlotState.fulfilled .vnone true false)]
    (by simp [resolve_outputs_all_properties, deserialize_properties,
      deserialize_properties_entries, dictGet, special_sig_key,
      resolve_outputs_accumulate, resolve_outputs_backfill])
    (by simp [resolve_outputs, resolve_outputs_all_properties,
      deserialize_properties, deserialize_properties_entries, dictGet,
      special_sig_key, resolve_outputs_accumulate, resolve_outputs_backfill,
      resolve_outputs_assign, do_resolve])
    "x" (by simp) (by simp [dictGet])
  simpa using h

/-- C7: in a speculative run with legacy-apply backfill enabled, a declared
property "x" the engine returned no value for, whose original serialized
inputs contained "x" bound to a (non-sentinel) string, is fulfilled through
the backfill path with that string, known=true, secret=false. -/
theorem resolve_outputs_backfill_scenario (s : String) (hs : s ≠ UNKNOWN) :
    resolve_outputs true true (fun k => k) (fun _ => none)
        [("x", .str s)] [] ["x"] =
      .ok [("x", SlotState.fulfilled (.vstr s) true false)] := by
  simp [resolve_outputs, resolve_outputs_all_properties, deserialize_properties,
    deserialize_properties_entries, dictGet, special_sig_key,
    resolve_outputs_accumulate, resolve_outputs_backfill, deserialize_property,
    hs, translate_output_properties, resolve_outputs_assign, do_resolve,
    is_rpc_secret, unwrap_rpc_secret, PValue.isNone, dictSet]

/-- Witness for C7: the concrete scenario with original input {"x": "seed"}. -/
theorem resolve_outputs_backfill_scenario_witness :
    resolve_outputs true true (fun k => k) (fun _ => none)
        [("x", .str "seed")] [] ["x"] =
      .ok [("x", SlotState.fulfilled (.vstr "seed") true false)] :=
  resolve_outputs_backfill_scenario "seed" (by decide)

/-- Elementwise specification of wire-list deserialization: on success the
output has the same length and the i-th output is the deserialization of the
i-th input. -/
theorem deserialize_property_list_spec (dry keep : Bool) :
    ∀ (xs : List WireValue) values,
      deserialize_property_list dry keep xs = .ok values →
      values.length = xs.length ∧
      ∀ i (h1 : i < xs.length) (h2 : i < values.length),
        deserialize_property dry keep (xs.get ⟨i, h1⟩) = .ok (values.get ⟨i, h2⟩) := by
  intro xs
  induction xs with
  | nil =>
      intro values h
      simp [deserialize_property_list] at h
      subst h
      simp
  | cons x rest ih =>
      intro values h
      rw [deserialize_property_list] at h
      split at h
      · exact absurd h (by simp)
      · rename_i v heq1
        split at h
        · exact absurd h (by simp)
        · rename_i vs heq2
          simp at h
          subst h
          obtain ⟨hlen, hpos⟩ := ih vs heq2
          refine ⟨by simp [hlen], ?_⟩
          intro i h1 h2
          match i with
          | 0 => simpa using heq1
          | Nat.succ j =>
              simp only [List.get_cons_succ]
              exact hpos j (by simpa using h1) (by simpa using h2)

/-- C10: deserialize_property on a wire list preserves length and element
order, and elements that deserialize to Null stay in place (when no member is
secret the result is exactly the elementwise deserialization); dropping of
entries whose value deserializes to Null happens only for string-keyed map
entries — the surviving map entries are exactly the non-Null ones. -/
theorem deserialize_list_keeps_null_elements :
    (∀ (dry keep : Bool) xs values,
      deserialize_property_list dry keep xs = .ok values →
      values.length = xs.length ∧
      (∀ i (h1 : i < xs.length) (h2 : i < values.length),
        deserialize_property dry keep (xs.get ⟨i, h1⟩) = .ok (values.get ⟨i, h2⟩)) ∧
      (values.any is_rpc_secret = false →
        deserialize_property dry keep (.list xs) = .ok (.vlist values))) ∧
    (∀ (dry keep : Bool) fields entries,
      deserialize_properties_entries dry keep fields = .ok entries →
      ∀ p ∈ entries, Prod.snd p ≠ PValue.vnone) := by
  constructor
  · intro dry keep xs values h
    obtain ⟨hlen, hpos⟩ := deserialize_property_list_spec dry keep xs values h
    refine ⟨hlen, hpos, ?_⟩
    intro hsec
    rw [deserialize_property]
    rw [h]
    simp [hsec]
  · intro dry keep fields
    induction fields with
    | nil =>
        intro entries h p hp
        simp [deserialize_properties_entries] at h
        subst h
        simp at hp
    | cons f rest ih =>
        intro entries h p hp
        obtain ⟨k, w⟩ := f
        rw [deserialize_properties_entries] at h
        split at h
        · exact absurd h (by simp)
        · rename_i v heq1
          split at h
          · exact absurd h (by simp)
          · rename_i out heq2
            split at h
            · simp at h
              exact ih out heq2 p (h ▸ hp)
            · rename_i hne
              simp at h
              subst h
              rcases List.mem_cons.1 hp with hp' | hp'
              · subst hp'
                simpa using hne
              · exact ih out heq2 p hp'

/-- Witness for C10: the wire list [null, "a"] deserializes to the list
[Null, "a"] — the null element keeps its position rather than being
dropped. -/
theorem deserialize_list_keeps_null_elements_witness :
    deserialize_property false false (.list [.null, .str "a"]) =
      .ok (.vlist [.vnone, .vstr "a"]) :=
  (deserialize_list_keeps_null_elements.1 false false [.null, .str "a"]
      [.vnone, .vstr "a"]
      (by simp [deserialize_property_list, deserialize_property, UNKNOWN])).2.2
    (by simp [is_rpc_secret])

/-- C5: a wire list or signature-free wire map with at least one member
deserializing to a secret-wrapped value deserializes to a single secret
wrapper whose payload is the container with every member's own secret wrapper
stripped (non-secret members are untouched by the strip). -/
theorem deserialize_secret_bubbling :
    (∀ (dry keep : Bool) xs values,
      deserialize_property_list dry keep xs = .ok values →
      values.any is_rpc_secret = true →
      deserialize_property dry keep (.list xs) =
        .ok (.vdict [(special_sig_key, .vstr special_secret_sig),
                     ("value", .vlist (values.map unwrap_rpc_secret))])) ∧
    (∀ (dry keep : Bool) fields entries,
      dictGet fields special_sig_key = none →
      deserialize_properties_entries dry keep fields = .ok entries →
      (entries.any fun p => is_rpc_secret (Prod.snd p)) = true →
      deserialize_property dry keep (.struct fields) =
        .ok (.vdict [(special_sig_key, .vstr special_secret_sig),
                     ("value", .vdict (entries.map fun p =>
                        (Prod.fst p, unwrap_rpc_secret (Prod.snd p))))])) := by
  constructor
  · intro dry keep xs values h hsec
    rw [deserialize_property]
    rw [h]
    simp [hsec]
  · intro dry keep fields entries hsig h hsec
    rw [deserialize_property]
    rw [deserialize_properties]
    rw [hsig]
    rw [h]
    simp [hsec]

/-- Witness for C5: a one-element wire list whose element is a secret-wrapped
"s" bubbles to one wrapper around ["s"], and a one-entry wire map {"a":
secret("s")} bubbles to one wrapper around {"a": "s"}. -/
theorem deserialize_secret_bubbling_witness :
    deserialize_property false false
        (.list [.struct [(special_sig_key, .str special_secret_sig),
                         ("value", .str "s")]]) =
      .ok (.vdict [(special_sig_key, .vstr special_secret_sig),
                   ("value", .vlist [.vstr "s"])]) ∧
    deserialize_property false false
        (.struct [("a", .struct [(special_sig_key, .str special_secret_sig),
                                 ("value", .str "s")])]) =
      .ok (.vdict [(special_sig_key, .vstr special_secret_sig),
                   ("value", .vdict [("a", .vstr "s")])]) := by
  constructor
  · have h := deserialize_secret_bubbling.1 false false
      [.struct [(special_sig_key, .str special_secret_sig), ("value", .str "s")]]
      [.vdict [(special_sig_key, .vstr special_secret_sig), ("value", .vstr "s")]]
      (by simp [deserialize_property_list, deserialize_property,
        deserialize_properties, dictGet, special_sig_key, special_secret_sig,
        special_asset_sig, special_archive_sig, UNKNOWN, is_rpc_secret,
        unwrap_rpc_secret])
      (by simp [is_rpc_secret, dictGet])
    simpa [unwrap_rpc_secret, is_rpc_secret, dictGet] using h
  · have h := deserialize_secret_bubbling.2 false false
      [("a", .struct [(special_sig_key, .str special_secret_sig),
                      ("value", .str "s")])]
      [("a", .vdict [(special_sig_key, .vstr special_secret_sig),
                     ("value", .vstr "s")])]
      (by simp [dictGet, special_sig_key])
      (by simp [deserialize_properties_entries, deserialize_property,
        deserialize_properties, dictGet, special_sig_key, special_secret_sig,
        special_asset_sig, special_archive_sig, UNKNOWN, is_rpc_secret,
        unwrap_rpc_secret])
      (by simp [is_rpc_secret, dictGet])
    simpa [unwrap_rpc_secret, is_rpc_secret, dictGet] using h

/-- drop_nulls maps a value to Null exactly when it is Null. -/
theorem drop_nulls_eq_vnone (v : PValue) :
    drop_nulls v = PValue.vnone ↔ v = PValue.vnone := by
  cases v <;> simp [drop_nulls]

/-- The signature key never occurs among the keys of a null-dropped plain
dict. -/
theorem dictGet_drop_nulls_entries_sig :
    ∀ es, plain_value_entries es = true →
      dictGet (drop_nulls_entries es) special_sig_key = none := by
  intro es
  induction es with
  | nil => intro hp; simp [drop_nulls_entries, dictGet]
  | cons p rest ih =>
      intro hp
      obtain ⟨k, v⟩ := p
      simp only [plain_value_entries, Bool.and_eq_true] at hp
      obtain ⟨⟨hk, hv⟩, hrest⟩ := hp
      have hkne : k ≠ special_sig_key := by
        intro hkk
        simp [hkk] at hk
      have hstep : drop_nulls_entries ((k, v) :: rest) = drop_nulls_entries rest ∨
          drop_nulls_entries ((k, v) :: rest) =
            (k, drop_nulls v) :: drop_nulls_entries rest := by
        cases v <;> simp [drop_nulls_entries]
      rcases hstep with hstep | hstep <;> rw [hstep]
      · exact ih hrest
      · simp [dictGet, hkne]
        exact ih hrest

/-- A null-dropped plain value is never a secret wrapper. -/
theorem plain_not_secret (v : PValue) (hp : plain_value v = true) :
    is_rpc_secret (drop_nulls v) = false := by
  cases v with
  | vdict es =>
      rw [plain_value] at hp
      simp only [Bool.and_eq_true] at hp
      rw [drop_nulls]
      rw [is_rpc_secret]
      rw [dictGet_drop_nulls_entries_sig es hp.2]
  | vlist xs => simp [drop_nulls, is_rpc_secret]
  | vnone => simp [drop_nulls, is_rpc_secret]
  | vbool b => simp [drop_nulls, is_rpc_secret]
  | vnum n => simp [drop_nulls, is_rpc_secret]
  | vstr s => simp [drop_nulls, is_rpc_secret]
  | vunknown => simp [plain_value] at hp
  | vres e idv => simp [plain_value] at hp
  | vasset p t u => simp [plain_value] at hp
  | varchive a p u => simp [plain_value] at hp
  | vfuture w => simp [plain_value] at hp
  | voutput rs k s w => simp [plain_value] at hp
  | vinput es => simp [plain_value] at hp
  | villegal ty => simp [plain_value] at hp

/-- No member of a null-dropped plain list is a secret wrapper. -/
theorem drop_nulls_list_no_secret :
    ∀ xs, plain_value_list xs = true →
      (drop_nulls_list xs).any is_rpc_secret = false := by
  intro xs
  induction xs with
  | nil => intro hp; simp [drop_nulls_list]
  | cons x rest ih =>
      intro hp
      simp only [plain_value_list, Bool.and_eq_true] at hp
      rw [drop_nulls_list]
      simp only [List.any_cons, Bool.or_eq_false_iff]
      exact ⟨plain_not_secret x hp.1, ih hp.2⟩

/-- No member of a null-dropped plain dict is a secret wrapper. -/
theorem drop_nulls_entries_no_secret :
    ∀ es, plain_value_entries es = true →
      ((drop_nulls_entries es).any fun p => is_rpc_secret (Prod.snd p)) = false := by
  intro es
  induction es with
  | nil => intro hp; simp [drop_nulls_entries]
  | cons p rest ih =>
      intro hp
      obtain ⟨k, v⟩ := p
      simp only [plain_value_entries, Bool.and_eq_true] at hp
      obtain ⟨⟨hk, hv⟩, hrest⟩ := hp
      have hstep : drop_nulls_entries ((k, v) :: rest) = drop_nulls_entries rest ∨
          drop_nulls_entries ((k, v) :: rest) =
            (k, drop_nulls v) :: drop_nulls_entries rest := by
        cases v <;> simp [drop_nulls_entries]
      rcases hstep with hstep | hstep <;> rw [hstep]
      · exact ih hrest
      · simp only [List.any_cons, Bool.or_eq_false_iff]
        exact ⟨plain_not_secret v hv, ih hrest⟩

/-- The signature key never occurs among the keys of the wire image of a
plain dict. -/
theorem dictGet_to_wire_entries_sig :
    ∀ es, plain_value_entries es = true →
      dictGet (to_wire_entries es) special_sig_key = none := by
  intro es
  induction es with
  | nil => intro hp; simp [to_wire_entries, dictGet]
  | cons p rest ih =>
      intro hp
      obtain ⟨k, v⟩ := p
      simp only [plain_value_entries, Bool.and_eq_true] at hp
      obtain ⟨⟨hk, hv⟩, hrest⟩ := hp
      have hkne : k ≠ special_sig_key := by
        intro hkk
        simp [hkk] at hk
      rw [to_wire_entries]
      simp [dictGet, hkne]
      exact ih hrest

/-- Serialization acts as the constructor-wise wire injection on plain lists,
leaving deps untouched. -/
theorem serialize_plain_list (ss : Bool) :
    ∀ (xs : List PValue),
      (∀ x ∈ xs, plain_value x = true → ∀ deps,
        serialize_property none ss x deps = .ok (to_wire x, deps)) →
      plain_value_list xs = true →
      ∀ deps, serialize_property_list none ss xs deps = .ok (to_wire_list xs, deps) := by
  intro xs
  induction xs with
  | nil =>
      intro hmem hp deps
      simp [serialize_property_list, to_wire_list]
  | cons x rest ih =>
      intro hmem hp deps
      simp only [plain_value_list, Bool.and_eq_true] at hp
      have h1 := hmem x (by simp) hp.1 deps
      have h2 := ih (fun y hy hpy => hmem y (by simp [hy]) hpy) hp.2 deps
      simp [serialize_property_list, h1, h2, to_wire_list]

/-- Serialization acts as the constructor-wise wire injection on plain dicts
(no key transformation happens with no input_transformer), leaving deps
untouched. -/
theorem serialize_plain_entries (ss : Bool) :
    ∀ (es : List (String × PValue)),
      (∀ p ∈ es, plain_value (Prod.snd p) = true → ∀ deps,
        serialize_property none ss (Prod.snd p) deps = .ok (to_wire (Prod.snd p), deps)) →
      plain_value_entries es = true →
      keys_nodup es = true →
      ∀ obj deps, (∀ p ∈ es, dictGet obj (Prod.fst p) = none) →
        serialize_property_entries none ss true es obj deps =
          .ok (obj ++ to_wire_entries es, deps) := by
  intro es
  induction es with
  | nil =>
      intro hmem hp hnd obj deps hfresh
      simp [serialize_property_entries, to_wire_entries]
  | cons p rest ih =>
      intro hmem hp hnd obj deps hfresh
      obtain ⟨k, v⟩ := p
      simp only [plain_value_entries, Bool.and_eq_true] at hp
      obtain ⟨⟨hk, hv⟩, hrest⟩ := hp
      simp only [keys_nodup, Bool.and_eq_true] at hnd
      have hkrest : dictGet rest k = none := by
        rcases hget : dictGet rest k with _ | w
        · rfl
        · rw [hget] at hnd
          simp at hnd
      have hndrest : keys_nodup rest = true := hnd.2
      have h1 := hmem (k, v) (by simp) hv deps
      have hobjk : dictGet obj k = none := hfresh (k, v) (by simp)
      have hfresh' : ∀ q ∈ rest, dictGet (obj ++ [(k, to_wire v)]) (Prod.fst q) = none := by
        intro q hq
        rw [dictGet_append]
        rw [hfresh q (by simp [hq])]
        have hne := dictGet_none_ne rest k hkrest q hq
        simp [dictGet]
        exact fun hc => hne hc.symm
      have h2 := ih (fun q hq hpq => hmem q (by simp [hq]) hpq) hrest hndrest
        (obj ++ [(k, to_wire v)]) deps hfresh'
      rw [to_wire_entries]
      simp only [serialize_property_entries, h1]
      have htk : transformed_key none true k = k := by simp [transformed_key]
      rw [htk]
      rw [dictSet_fresh obj k (to_wire v) hobjk]
      rw [h2]
      simp

/-- serialize_property is the identity injection into the wire alphabet on
plain values: no transformation, no dropping, no new dependencies. -/
theorem serialize_plain :
    ∀ v, plain_value v = true → ∀ (ss : Bool) deps,
      serialize_property none ss v deps = .ok (to_wire v, deps) := by
  intro v
  induction v using pvalue_induction_on with
  | hnone => intro hp ss deps; simp [serialize_property, to_wire]
  | hbool b => intro hp ss deps; simp [serialize_property, to_wire]
  | hnum n => intro hp ss deps; simp [serialize_property, to_wire]
  | hstr s => intro hp ss deps; simp [serialize_property, to_wire]
  | hlist xs ihs =>
      intro hp ss deps
      rw [plain_value] at hp
      have hl := serialize_plain_list ss xs
        (fun x hx hpx => ihs x hx hpx ss) hp deps
      simp [serialize_property, hl, to_wire]
  | hdict es ihs =>
      intro hp ss deps
      rw [plain_value] at hp
      simp only [Bool.and_eq_true] at hp
      have he := serialize_plain_entries ss es
        (fun p hq hpq => ihs p hq hpq ss) hp.2 hp.1 [] deps
        (by simp [dictGet])
      simp [serialize_property, he, to_wire]
  | hunknown => intro hp ss deps; simp [plain_value] at hp
  | hres e idv ih => intro hp ss deps; simp [plain_value] at hp
  | hasset p t u ihp iht ihu => intro hp ss deps; simp [plain_value] at hp
  | harchive a p u iha ihp ihu => intro hp ss deps; simp [plain_value] at hp
  | hfuture v ih => intro hp ss deps; simp [plain_value] at hp
  | houtput rs k s v ih => intro hp ss deps; simp [plain_value] at hp
  | hinput es ihs => intro hp ss deps; simp [plain_value] at hp
  | hillegal ty => intro hp ss deps; simp [plain_value] at hp

/-- Deserialization recovers a plain list elementwise, null-dropping each
member. -/
theorem deserialize_plain_list (dry keep : Bool) :
    ∀ (xs : List PValue),
      (∀ x ∈ xs, plain_value x = true →
        deserialize_property dry keep (to_wire x) = .ok (drop_nulls x)) →
      plain_value_list xs = true →
      deserialize_property_list dry keep (to_wire_list xs) =
        .ok (drop_nulls_list xs) := by
  intro xs
  induction xs with
  | nil =>
      intro hmem hp
      simp [to_wire_list, deserialize_property_list, drop_nulls_list]
  | cons x rest ih =>
      intro hmem hp
      simp only [plain_value_list, Bool.and_eq_true] at hp
      have h1 := hmem x (by simp) hp.1
      have h2 := ih (fun y hy hpy => hmem y (by simp [hy]) hpy) hp.2
      simp [to_wire_list, deserialize_property_list, h1, h2, drop_nulls_list]

/-- Deserialization recovers a plain dict entrywise, dropping exactly the
entries whose value is Null. -/
theorem deserialize_plain_entries (dry keep : Bool) :
    ∀ (es : List (String × PValue)),
      (∀ p ∈ es, plain_value (Prod.snd p) = true →
        deserialize_property dry keep (to_wire (Prod.snd p)) =
          .ok (drop_nulls (Prod.snd p))) →
      plain_value_entries es = true →
      deserialize_properties_entries dry keep (to_wire_entries es) =
        .ok (drop_nulls_entries es) := by
  intro es
  induction es with
  | nil =>
      intro hmem hp
      simp [to_wire_entries, deserialize_properties_entries, drop_nulls_entries]
  | cons p rest ih =>
      intro hmem hp
      obtain ⟨k, v⟩ := p
      simp only [plain_value_entries, Bool.and_eq_true] at hp
      obtain ⟨⟨hk, hv⟩, hrest⟩ := hp
      have h1 := hmem (k, v) (by simp) hv
      have h2 := ih (fun q hq hpq => hmem q (by simp [hq]) hpq) hrest
      rw [to_wire_entries]
      cases v with
      | vnone =>
          simp only [to_wire] at h1 ⊢
          simp [deserialize_properties_entries, h1, h2, drop_nulls_entries,
            drop_nulls] at *
      | vbool b =>
          simp [deserialize_properties_entries, h1, h2, drop_nulls_entries,
            drop_nulls]
      | vnum n =>
          simp [deserialize_properties_entries, h1, h2, drop_nulls_entries,
            drop_nulls]
      | vstr s =>
          simp [deserialize_properties_entries, h1, h2, drop_nulls_entries,
            drop_nulls]
      | vlist xs =>
          simp [deserialize_properties_entries, h1, h2, drop_nulls_entries,
            drop_nulls]
      | vdict es2 =>
          simp [deserialize_properties_entries, h1, h2, drop_nulls_entries,
            drop_nulls]
      | vunknown => simp [plain_value] at hv
      | vres e idv => simp [plain_value] at hv
      | vasset pp tt uu => simp [plain_value] at hv
      | varchive aa pp uu => simp [plain_value] at hv
      | vfuture w => simp [plain_value] at hv
      | voutput rs kk sss w => simp [plain_value] at hv
      | vinput es2 => simp [plain_value] at hv
      | villegal ty => simp [plain_value] at hv

/-- deserialize_property recovers a plain value from its wire image exactly,
except that dict entries whose value is Null are dropped (at every level);
the unknown-handling flags are irrelevant since plain values avoid the
sentinel. -/
theorem deserialize_plain :
    ∀ v, plain_value v = true → ∀ (dry keep : Bool),
      deserialize_property dry keep (to_wire v) = .ok (drop_nulls v) := by
  intro v
  induction v using pvalue_induction_on with
  | hnone => intro hp dry keep; simp [to_wire, deserialize_property, drop_nulls]
  | hbool b => intro hp dry keep; simp [to_wire, deserialize_property, drop_nulls]
  | hnum n => intro hp dry keep; simp [to_wire, deserialize_property, drop_nulls]
  | hstr s =>
      intro hp dry keep
      rw [plain_value] at hp
      have hne : s ≠ UNKNOWN := by
        intro hss
        simp [hss] at hp
      simp [to_wire, deserialize_property, hne, drop_nulls]
  | hlist xs ihs =>
      intro hp dry keep
      rw [plain_value] at hp
      have hl := deserialize_plain_list dry keep xs
        (fun x hx hpx => ihs x hx hpx dry keep) hp
      simp [to_wire, deserialize_property, hl, drop_nulls,
        drop_nulls_list_no_secret xs hp]
  | hdict es ihs =>
      intro hp dry keep
      rw [plain_value] at hp
      simp only [Bool.and_eq_true] at hp
      have hsig := dictGet_to_wire_entries_sig es hp.2
      have he := deserialize_plain_entries dry keep es
        (fun p hq hpq => ihs p hq hpq dry keep) hp.2
      have hnb := drop_nulls_entries_no_secret es hp.2
      simp [to_wire, deserialize_property, deserialize_properties, hsig, he,
        hnb, drop_nulls]
  | hunknown => intro hp dry keep; simp [plain_value] at hp
  | hres e idv ih => intro hp dry keep; simp [plain_value] at hp
  | hasset p t u ihp iht ihu => intro hp dry keep; simp [plain_value] at hp
  | harchive a p u iha ihp ihu => intro hp dry keep; simp [plain_value] at hp
  | hfuture v ih => intro hp dry keep; simp [plain_value] at hp
  | houtput rs k s v ih => intro hp dry keep; simp [plain_value] at hp
  | hinput es ihs => intro hp dry keep; simp [plain_value] at hp
  | hillegal ty => intro hp dry keep; simp [plain_value] at hp

/-- C6 counterexample: a native value built only from scalars can fail the
round trip — the scalar string equal to the UNKNOWN sentinel serializes to
itself but deserializes to Null (or to the Unknown marker on a dry run),
which is not the original value and is not explained by null-dropping of
map or list entries. -/
theorem roundtrip_sentinel_string_counterexample :
    serialize_property none false (.vstr UNKNOWN) [] = .ok (.str UNKNOWN, []) ∧
    deserialize_property false false (.str UNKNOWN) = .ok PValue.vnone ∧
    PValue.vnone ≠ PValue.vstr UNKNOWN ∧
    drop_nulls (.vstr UNKNOWN) = PValue.vstr UNKNOWN ∧
    serialize_property none false (.vdict [(special_sig_key, .vstr "x")]) [] =
      .ok (.struct [(special_sig_key, .str "x")], []) ∧
    deserialize_property false false (.struct [(special_sig_key, .str "x")]) =
      .error (.assertionError
        "Unrecognized signature when unmarshalling resource property") := by
  refine ⟨by rfl, by simp [deserialize_property], by simp, by simp [drop_nulls],
    by rfl, ?_⟩
  simp [deserialize_property, deserialize_properties, dictGet, special_sig_key,
    special_asset_sig, special_archive_sig, special_secret_sig, UNKNOWN]

/-- C6 (amended): for native values built only from scalars, lists and
string-keyed maps whose strings avoid the UNKNOWN sentinel and whose keys
avoid the reserved signature key, deserializing the serialization yields the
value back with exactly the dict entries whose value is Null dropped (at
every level); list entries, including Null ones, all survive. -/
theorem roundtrip_plain (ss dry keep : Bool) (v : PValue) (deps : List Nat)
    (w : WireValue) (deps' : List Nat) (hp : plain_value v = true)
    (h : serialize_property none ss v deps = .ok (w, deps')) :
    deserialize_property dry keep w = .ok (drop_nulls v) := by
  have hs := serialize_plain v hp ss deps
  rw [h] at hs
  have hw : w = to_wire v := by
    injection hs with hs'
    exact (congrArg Prod.fst hs')
  rw [hw]
  exact deserialize_plain v hp dry keep

/-- Witness for C6 (amended): the bag {"a": None, "b": [None, "x"]}
round-trips to {"b": [None, "x"]} — the null dict entry is dropped, the null
list element survives in place. -/
theorem roundtrip_plain_witness :
    deserialize_property false false
        (.struct [("a", .null), ("b", .list [.null, .str "x"])]) =
      .ok (.vdict [("b", .vlist [.vnone, .vstr "x"])]) := by
  have h := roundtrip_plain false false false
    (.vdict [("a", .vnone), ("b", .vlist [.vnone, .vstr "x"])]) []
    (.struct [("a", .null), ("b", .list [.null, .str "x"])]) []
    (by rfl) (by rfl)
  simpa [drop_nulls, drop_nulls_entries, drop_nulls_list] using h
